import Mathlib

/-!
# wtree: the interactive state machine of the git worktree manager

A shallow embedding of `main.go` and `git.go`: the `model` aggregate, the
`Update` transition function, the branch filter and the viewport arithmetic.

Conventions of the embedding.

* Go's `int` values here are list indices, list lengths and terminal
  dimensions; they are embedded as `Int`, far away from the 64-bit bounds.
* An index expression `xs[i]` that Go would abort on (index out of range) makes
  the embedded function return `none`.
* A `tea.Cmd` is embedded as a value of `Cmd` naming the command constructor
  that built it together with its argument.
* The text input widget (`textinput.Model` of the bubbles library) is
  embedded as its observable state; its own `Update` is a parameter `ti` of
  the transition function, so that results hold for every behaviour of the
  widget, and `typingInput` is one concrete behaviour used to run scenarios.
* The matcher `fuzzy.Find` (package github.com/sahilm/fuzzy) is modelled from
  the specification; its case folding and its measure of match quality are
  the parameter `matcher` of the transition function, so that results hold for
  every case folding and every ranking, and `flatMatcher` is the one used to
  run scenarios.
-/

namespace Wtree

/-! ## Data model (`main.go`, lines 20-56; `git.go`, lines 14-22) -/

/-- A checked-out working directory (`type Worktree struct`). -/
structure Worktree where
  Path : String
  Branch : String
  Head : String
deriving DecidableEq, Repr

/-- A local or remote branch (`type Branch struct`); the field `Type` of the
source, "local" or "remote", is `Type_` here. -/
structure Branch where
  Name : String
  Type_ : String
  LastCommit : String
deriving DecidableEq, Repr

/-- The messages `Update` receives: `tea.KeyMsg` (by its `String()`), the
message types of `git.go`, `tea.WindowSizeMsg`, `clearStatusMsg`, a value
implementing `error` (by its text), and any other message. -/
inductive Msg where
  | key (keyStr : String)
  | worktreesMsg (ws : List Worktree)
  | branchesMsg (bs : List Branch)
  | newBranchCreatingMsg (branchName : String)
  | newBranchCreatedMsg
  | deletingWorktreeMsg (path : String)
  | worktreeDeletedMsg
  | worktreeCreatedMsg (branch : String)
  | windowSizeMsg (Width Height : Int)
  | clearStatusMsg
  | error (text : String)
  | other
deriving DecidableEq, Repr

/-- The commands `Update` returns, one constructor per command constructor of
`git.go` and `main.go`; `blink` is the command returned by the widget's
`Focus()`, `inputCmd` a command returned by the widget's `Update`, and
`batch` is `tea.Batch` of a non-empty list. -/
inductive Cmd where
  | quit
  | getWorktreesCmd
  | getBranchesCmd
  | createWorktreeCmd (branch : Branch)
  | deleteWorktreeCmd (worktree : Worktree)
  | performDeleteWorktreeCmd (worktree : Worktree)
  | openWorktreeCmd (worktree : Worktree)
  | createNewBranchWorktreeCmd (branchName : String)
  | performCreateNewBranchWorktreeCmd (branchName : String)
  | clearStatusAfterDelay
  | blink
  | inputCmd
  | batch (cmds : List Cmd)

/-- The `tea.Batch` function: no command at all for an empty list. -/
def teaBatch (cmds : List Cmd) : Option Cmd :=
  if cmds.isEmpty then none else some (Cmd.batch cmds)

/-- Observable state of a `textinput.Model`: the text typed so far, whether the
widget has the focus, and the three settings `initialModel` assigns. -/
structure TextInput where
  value : String
  focus : Bool
  Placeholder : String
  CharLimit : Nat
  Width : Nat
deriving DecidableEq, Repr

namespace TextInput

/-- The widget as `textinput.New()` returns it, with the settings given. -/
def new (placeholder : String) (charLimit width : Nat) : TextInput :=
  { value := "", focus := false, Placeholder := placeholder,
    CharLimit := charLimit, Width := width }

/-- The `Value()` accessor. -/
def Value (t : TextInput) : String := t.value

/-- The `SetValue(s)` method; the source only ever calls it with the empty text. -/
def SetValue (t : TextInput) (s : String) : TextInput := { t with value := s }

/-- The `Focus()` method (its returned command is `Cmd.blink`). -/
def Focus (t : TextInput) : TextInput := { t with focus := true }

/-- The `Blur()` method. -/
def Blur (t : TextInput) : TextInput := { t with focus := false }

end TextInput

/-- The behaviour of the widget's `Update`: the new widget state, and whether a
command came back with it. -/
abbrev InputUpdate := TextInput → Msg → TextInput × Bool

/-- One concrete widget behaviour: a focused widget appends the character of a
one-character key (as long as the character limit allows) and ignores every
other message; it never returns a command. -/
def typingInput : InputUpdate := fun t msg =>
  match msg with
  | Msg.key k =>
    if t.focus && k.length == 1 && decide (t.value.length < t.CharLimit) then
      ({ t with value := t.value ++ k }, false)
    else (t, false)
  | _ => (t, false)

/-- The application state (`type model struct`). -/
structure model where
  worktrees : List Worktree
  branches : List Branch
  allBranches : List Branch
  filterInput : TextInput
  cursor : Int
  selected : List Int
  view : String
  filtering : Bool
  viewportHeight : Int
  scrollOffset : Int
  newBranchInput : TextInput
  creatingBranch : Bool
  windowWidth : Int
  windowHeight : Int
  deletingWorktree : Bool
  deletingPath : String
  creatingWorktree : Bool
  creatingForBranch : String
  creatingNewBranch : Bool
  creatingNewBranchName : String
  statusMessage : String
deriving DecidableEq, Repr

/-- The `initialModel` function. -/
def initialModel : model :=
  { worktrees := [], branches := [], allBranches := [],
    filterInput := TextInput.new "Type to fuzzy filter branches..." 100 40,
    cursor := 0, selected := [], view := "worktrees", filtering := false,
    viewportHeight := 20, scrollOffset := 0,
    newBranchInput := TextInput.new "Enter branch name..." 100 40,
    creatingBranch := false, windowWidth := 80, windowHeight := 24,
    deletingWorktree := false, deletingPath := "",
    creatingWorktree := false, creatingForBranch := "",
    creatingNewBranch := false, creatingNewBranchName := "",
    statusMessage := "" }

/-- Go's `xs[i]` for an `int` index: `none` stands for the run-time abort on an
index below zero or not below the length. -/
def index? {α : Type} (xs : List α) (i : Int) : Option α :=
  if 0 ≤ i then xs[i.toNat]? else none

/-! ## The branch filter (`main.go`, lines 559-587) -/

/-- One element of the result of `fuzzy.Find` (type `fuzzy.Match`): the matched
text, its index in the input and its score. -/
structure Match where
  Str : String
  Index : Nat
  Score : Int
deriving DecidableEq, Repr

/-- The two parts of the matcher `fuzzy.Find` that the specification does not
fix: `fold`, the case folding, which sends every character to the one that
stands for all the characters differing from it in case only (two characters
are equal case-insensitively when they have the same fold), and `quality`, the
measure of match quality by which the matches are ranked. -/
structure Matcher where
  fold : Char → Char
  quality : String → String → Int

/-- Modelled from the spec: the case-insensitive comparison of two characters
used by the matcher `fuzzy.Find`, whose code is not among the sources, for the
case folding `fold`. -/
def equalFold (fold : Char → Char) (a b : Char) : Bool := fold a == fold b

/-- Modelled from the spec: the match test of `fuzzy.Find`, whose code is not
among the sources. Section 4.2: every character of the pattern occurs in the
candidate, in order and not necessarily contiguously, compared
case-insensitively. -/
def isSubseqFold (fold : Char → Char) : List Char → List Char → Bool
  | [], _ => true
  | _ :: _, [] => false
  | p :: ps, c :: cs =>
    if equalFold fold p c then isSubseqFold fold ps cs else isSubseqFold fold (p :: ps) cs

/-- Modelled from the spec: the scan of `fuzzy.Find` over its input, whose code
is not among the sources: the candidates that match, from index `i` on, each
with its index in the input and its score. -/
def scanMatches (matcher : Matcher) (pattern : String) :
    Nat → List String → List Match
  | _, [] => []
  | i, s :: rest =>
    if isSubseqFold matcher.fold pattern.toList s.toList then
      { Str := s, Index := i, Score := matcher.quality pattern s } ::
        scanMatches matcher pattern (i + 1) rest
    else scanMatches matcher pattern (i + 1) rest

/-- Modelled from the spec: the matcher `fuzzy.Find` of the package
github.com/sahilm/fuzzy, whose code is not among the sources. Following
section 4.2 of the specification, a candidate matches when every query
character appears in it in order, case-insensitively; the matches are ranked by
match quality, higher first, ties keeping the order of the input. The case
folding and the measure of quality are the two fields of `matcher`. -/
def fuzzyFind (matcher : Matcher) (pattern : String)
    (data : List String) : List Match :=
  if pattern = "" then []
  else List.insertionSort (fun a b => b.Score ≤ a.Score)
    (scanMatches matcher pattern 0 data)

/-- The loop of `filterBranches` that builds the filtered list:
`filtered = append(filtered, m.allBranches[match.Index])` for every match. -/
def collectBranches (allBranches : List Branch) : List Match → Option (List Branch)
  | [] => some []
  | mt :: rest =>
    match allBranches[mt.Index]? with
    | none => none
    | some b =>
      match collectBranches allBranches rest with
      | none => none
      | some bs => some (b :: bs)

/-- The list the loop of `filterBranches` builds when no index is out of range. -/
def lookupMatches (allBranches : List Branch) (found : List Match) : List Branch :=
  found.filterMap (fun mt => allBranches[mt.Index]?)

/-- The branches `filterBranches` shows for a non-empty filter text. -/
def filteredBranches (matcher : Matcher) (filterText : String)
    (allBranches : List Branch) : List Branch :=
  lookupMatches allBranches
    (fuzzyFind matcher filterText (allBranches.map (fun b => b.Name)))

/-- The matcher of the scenarios, whose branch names are unaccented: it folds
the letters A to Z to a to z and ranks every match alike. -/
def flatMatcher : Matcher := { fold := Char.toLower, quality := fun _ _ => 0 }

/-- A matcher that also folds the accented letter É to é. -/
def accentMatcher : Matcher :=
  { fold := fun c => if c = 'É' then 'é' else c.toLower, quality := fun _ _ => 0 }

/-- The commands a returned command stands for: the members of a batch, or
the command itself. -/
def cmdList : Option Cmd → List Cmd
  | none => []
  | some (Cmd.batch cmds) => cmds
  | some c => [c]

/-- The `filterBranches` method. -/
def filterBranches (matcher : Matcher) (m : model) : Option model :=
  let filterText := m.filterInput.Value
  if filterText = "" then
    some { m with branches := m.allBranches }
  else
    let branchNames := m.allBranches.map (fun b => b.Name)
    let found := fuzzyFind matcher filterText branchNames
    match collectBranches m.allBranches found with
    | none => none
    | some filtered =>
      let m1 := { m with branches := filtered }
      if m1.cursor ≥ (m1.branches.length : Int) then
        some { m1 with cursor := 0 }
      else some m1

/-! ## Viewport arithmetic (`main.go`, lines 589-614) -/

/-- The `adjustScrollOffset` method. -/
def adjustScrollOffset (m : model) : model :=
  if m.cursor < m.scrollOffset then
    { m with scrollOffset := m.cursor }
  else if m.cursor ≥ m.scrollOffset + m.viewportHeight then
    { m with scrollOffset := m.cursor - m.viewportHeight + 1 }
  else m

/-- The `getViewportRange` method. -/
def getViewportRange (m : model) (totalItems : Int) : Int × Int :=
  if totalItems ≤ m.viewportHeight then (0, totalItems)
  else
    let start := m.scrollOffset
    let end_ := start + m.viewportHeight
    if end_ > totalItems then
      let end_ := totalItems
      let start := end_ - m.viewportHeight
      if start < 0 then (0, end_) else (start, end_)
    else (start, end_)

/-! ## The transition function (`main.go`, lines 152-362) -/

/-- The tail of `Update` (lines 358-361): the batch of the collected commands
when there is one, no command otherwise. -/
def finishCmd (cmds : List Cmd) : Option Cmd :=
  if cmds.length > 0 then teaBatch cmds else none

/-- The tail of `Update` (lines 358-361) with the state it returns. -/
def finish (m : model) (cmds : List Cmd) : Option (model × Option Cmd) :=
  some (m, finishCmd cmds)

/-- Lines 157-164 of `Update`: while filtering, the filter input sees the
message first and the filter is applied again. -/
def updateFilterInput (ti : InputUpdate) (matcher : Matcher)
    (m : model) (msg : Msg) : Option (model × List Cmd) :=
  if m.filtering = true then
    let r := ti m.filterInput msg
    match filterBranches matcher { m with filterInput := r.1 } with
    | none => none
    | some m1 => some (m1, if r.2 = true then [Cmd.inputCmd] else [])
  else some (m, [])

/-- Lines 166-171 of `Update`: while a new branch name is entered, the name
input sees the message first. -/
def updateNewBranchInput (ti : InputUpdate) (m : model) (cmds : List Cmd)
    (msg : Msg) : model × List Cmd :=
  if m.creatingBranch = true then
    let r := ti m.newBranchInput msg
    ({ m with newBranchInput := r.1 },
      if r.2 = true then cmds ++ [Cmd.inputCmd] else cmds)
  else (m, cmds)

/-- Lines 156-171 of `Update`: both text inputs in turn. -/
def updateInputs (ti : InputUpdate) (matcher : Matcher)
    (m : model) (msg : Msg) : Option (model × List Cmd) :=
  match updateFilterInput ti matcher m msg with
  | none => none
  | some (m1, cmds) => some (updateNewBranchInput ti m1 cmds msg)

/-- Lines 178-221 of `Update`: a key pressed while filtering or while entering
a new branch name. -/
def updateInputKey (m : model) (cmds : List Cmd) (keyStr : String) :
    Option (model × Option Cmd) :=
  if keyStr = "ctrl+c" then some (m, some Cmd.quit)
  else if keyStr = "esc" then
    if m.filtering = true then
      some ({ m with filtering := false,
                     filterInput := (m.filterInput.SetValue "").Blur,
                     branches := m.allBranches, cursor := 0 }, teaBatch cmds)
    else if m.creatingBranch = true then
      some ({ m with creatingBranch := false,
                     newBranchInput := (m.newBranchInput.SetValue "").Blur,
                     view := "branches" }, teaBatch cmds)
    else some (m, teaBatch cmds)
  else if keyStr = "enter" then
    if m.creatingBranch = true ∧ m.newBranchInput.Value ≠ "" then
      some (m, some (Cmd.createNewBranchWorktreeCmd m.newBranchInput.Value))
    else if m.filtering = true ∧ m.branches.length > 0 then
      match index? m.branches m.cursor with
      | none => none
      | some b =>
        some ({ m with filtering := false,
                       filterInput := (m.filterInput.SetValue "").Blur,
                       creatingWorktree := true,
                       creatingForBranch := b.Name,
                       statusMessage := "Creating worktree for branch '" ++ b.Name ++ "'..." },
              some (Cmd.createWorktreeCmd b))
    else some (m, teaBatch cmds)
  else if keyStr = "up" ∨ keyStr = "k" then
    if m.filtering = true ∧ m.cursor > 0 then
      some (adjustScrollOffset { m with cursor := m.cursor - 1 }, teaBatch cmds)
    else some (m, teaBatch cmds)
  else if keyStr = "down" ∨ keyStr = "j" then
    if m.filtering = true ∧ m.cursor < (m.branches.length : Int) - 1 then
      some (adjustScrollOffset { m with cursor := m.cursor + 1 }, teaBatch cmds)
    else some (m, teaBatch cmds)
  else some (m, teaBatch cmds)

/-- Lines 224-282 of `Update`: a key pressed in list mode. -/
def updateKey (m : model) (cmds : List Cmd) (keyStr : String) :
    Option (model × Option Cmd) :=
  if keyStr = "ctrl+c" ∨ keyStr = "q" then some (m, some Cmd.quit)
  else if keyStr = "enter" then
    if m.view = "worktrees" ∧ m.worktrees.length > 0 then
      match index? m.worktrees m.cursor with
      | none => none
      | some w => some (m, some (Cmd.openWorktreeCmd w))
    else if m.view = "branches" ∧ m.branches.length > 0 then
      match index? m.branches m.cursor with
      | none => none
      | some b =>
        some ({ m with creatingWorktree := true,
                       creatingForBranch := b.Name,
                       statusMessage := "Creating worktree for branch '" ++ b.Name ++ "'..." },
              some (Cmd.createWorktreeCmd b))
    else finish m cmds
  else if keyStr = "up" ∨ keyStr = "k" then
    if m.cursor > 0 then
      finish (adjustScrollOffset { m with cursor := m.cursor - 1 }) cmds
    else finish m cmds
  else if keyStr = "down" ∨ keyStr = "j" then
    if m.view = "worktrees" ∧ m.cursor < (m.worktrees.length : Int) - 1 then
      finish (adjustScrollOffset { m with cursor := m.cursor + 1 }) cmds
    else if m.view = "branches" ∧ m.cursor < (m.branches.length : Int) - 1 then
      finish (adjustScrollOffset { m with cursor := m.cursor + 1 }) cmds
    else finish m cmds
  else if keyStr = "tab" then
    if m.filtering = false ∧ m.creatingBranch = false then
      finish { m with view := if m.view = "worktrees" then "branches" else "worktrees",
                      cursor := 0, scrollOffset := 0 } cmds
    else finish m cmds
  else if (keyStr = "/" ∨ keyStr = "f") ∧ m.view = "branches" ∧ m.filtering = false
      ∧ m.creatingBranch = false then
    finish { m with filtering := true,
                    filterInput := (m.filterInput.SetValue "").Focus }
      (cmds ++ [Cmd.blink])
  else if keyStr = "n" ∧ m.view = "branches" ∧ m.filtering = false
      ∧ m.creatingBranch = false then
    finish { m with creatingBranch := true,
                    newBranchInput := (m.newBranchInput.SetValue "").Focus }
      (cmds ++ [Cmd.blink])
  else if keyStr = "d" ∧ m.filtering = false ∧ m.creatingBranch = false
      ∧ m.deletingWorktree = false ∧ m.view = "worktrees" ∧ m.worktrees.length > 0 then
    match index? m.worktrees m.cursor with
    | none => none
    | some w => some (m, some (Cmd.deleteWorktreeCmd w))
  else finish m cmds

/-- Lines 173-361 of `Update`: the switch on the type of the message, for the
state `m` and the commands `cmds` the text inputs left behind. -/
def handleMsg (matcher : Matcher) (m : model) (cmds : List Cmd)
    (msg : Msg) : Option (model × Option Cmd) :=
    match msg with
    | Msg.key keyStr =>
      if m.filtering = true ∨ m.creatingBranch = true then updateInputKey m cmds keyStr
      else updateKey m cmds keyStr
    | Msg.worktreesMsg ws => finish { m with worktrees := ws } cmds
    | Msg.branchesMsg bs =>
      match filterBranches matcher { m with allBranches := bs, branches := bs } with
      | none => none
      | some m1 => finish m1 cmds
    | Msg.newBranchCreatingMsg branchName =>
      some ({ m with creatingNewBranch := true,
                     creatingNewBranchName := branchName,
                     statusMessage :=
                       "Creating new branch '" ++ branchName ++ "' and worktree..." },
            some (Cmd.performCreateNewBranchWorktreeCmd branchName))
    | Msg.newBranchCreatedMsg =>
      some ({ m with creatingBranch := false,
                     creatingNewBranch := false,
                     creatingNewBranchName := "",
                     newBranchInput := (m.newBranchInput.SetValue "").Blur,
                     view := "worktrees", cursor := 0, scrollOffset := 0,
                     statusMessage := "✅ New branch and worktree created successfully" },
            teaBatch [Cmd.getWorktreesCmd, Cmd.clearStatusAfterDelay])
    | Msg.deletingWorktreeMsg path =>
      let m1 := { m with deletingWorktree := true, deletingPath := path }
      match m1.worktrees.find? (fun worktree => worktree.Path == path) with
      | some worktree => some (m1, some (Cmd.performDeleteWorktreeCmd worktree))
      | none => some (m1, none)
    | Msg.worktreeDeletedMsg =>
      some ({ m with deletingWorktree := false, deletingPath := "" },
            some Cmd.getWorktreesCmd)
    | Msg.worktreeCreatedMsg branch =>
      some ({ m with view := "worktrees", cursor := 0, scrollOffset := 0,
                     creatingWorktree := false, creatingForBranch := "",
                     statusMessage :=
                       "✅ Successfully created worktree for branch '" ++ branch ++ "'" },
            teaBatch [Cmd.getWorktreesCmd, Cmd.clearStatusAfterDelay])
    | Msg.windowSizeMsg Width Height =>
      finish { m with windowWidth := Width, windowHeight := Height,
                      viewportHeight := Height - 8 } cmds
    | Msg.clearStatusMsg => finish { m with statusMessage := "" } cmds
    | Msg.error err =>
      let m1 := if m.creatingNewBranch = true then
        { m with creatingNewBranch := false, creatingNewBranchName := "" } else m
      let m2 := if m1.creatingWorktree = true then
        { m1 with creatingWorktree := false, creatingForBranch := "" } else m1
      some ({ m2 with statusMessage := "❌ Error: " ++ err },
            some Cmd.clearStatusAfterDelay)
    | Msg.other => finish m cmds

/-- The `Update` method: `none` when the step aborts on an index out of
range, otherwise the next state and the command returned with it. -/
def Update (ti : InputUpdate) (matcher : Matcher)
    (m0 : model) (msg : Msg) : Option (model × Option Cmd) :=
  match updateInputs ti matcher m0 msg with
  | none => none
  | some (m, cmds) => handleMsg matcher m cmds msg

/-- The states the program can be in: `initialModel`, and every state a
non-aborting `Update` step leads to from such a state. -/
inductive Reachable (ti : InputUpdate) (matcher : Matcher) : model → Prop
  | init : Reachable ti matcher initialModel
  | step {m m1 : model} {c : Option Cmd} (msg : Msg) :
      Reachable ti matcher m → Update ti matcher m msg = some (m1, c) →
      Reachable ti matcher m1

/-- Feeding a list of messages, first to last, dropping the commands; `none`
as soon as one step aborts. -/
def run (ti : InputUpdate) (matcher : Matcher) :
    model → List Msg → Option model
  | m, [] => some m
  | m, msg :: rest =>
    match Update ti matcher m msg with
    | none => none
    | some (m1, _) => run ti matcher m1 rest

/-- The commands that perform a long-running operation: creating a worktree
for a branch, deleting a worktree, creating a new branch with its worktree. -/
def isOperation : Cmd → Bool
  | Cmd.createWorktreeCmd _ => true
  | Cmd.performDeleteWorktreeCmd _ => true
  | Cmd.performCreateNewBranchWorktreeCmd _ => true
  | _ => false

/-- The state `x` marks as pending every operation the command `c` performs,
with the target of the operation. -/
def pendingMarked (x : model) (c : Option Cmd) : Prop :=
  (∀ b, Cmd.createWorktreeCmd b ∈ cmdList c →
    x.creatingWorktree = true ∧ x.creatingForBranch = b.Name) ∧
  (∀ w, Cmd.performDeleteWorktreeCmd w ∈ cmdList c →
    x.deletingWorktree = true ∧ x.deletingPath = w.Path) ∧
  (∀ n, Cmd.performCreateNewBranchWorktreeCmd n ∈ cmdList c →
    x.creatingNewBranch = true ∧ x.creatingNewBranchName = n)

/-! ## Scenarios -/

/-- The main worktree of a repository at `/r`. -/
def wtMain : Worktree := { Path := "/r", Branch := "main", Head := "abc" }

/-- A second worktree, for the branch `feat`. -/
def wtFeat : Worktree := { Path := "/r-feat", Branch := "feat", Head := "def" }

/-- A third worktree, for the branch `fix`. -/
def wtFix : Worktree := { Path := "/r-fix", Branch := "fix", Head := "123" }

/-- The local branch `main`. -/
def brMain : Branch := { Name := "main", Type_ := "local", LastCommit := "" }

/-- The local branch `feature`. -/
def brFeature : Branch := { Name := "feature", Type_ := "local", LastCommit := "" }

/-- Two worktrees are listed, the cursor goes to the second one, which is
deleted; the refreshed listing has one worktree left. -/
def deleteLastTrace : List Msg :=
  [Msg.worktreesMsg [wtMain, wtFeat], Msg.key "down", Msg.key "d",
   Msg.deletingWorktreeMsg "/r-feat", Msg.worktreeDeletedMsg, Msg.worktreesMsg [wtMain]]

/-- The state `deleteLastTrace` leads to: one worktree, the cursor still at 1. -/
def staleCursorModel : model :=
  { initialModel with worktrees := [wtMain], cursor := 1 }

/-- One worktree is listed and its deletion is started; the deletion fails. -/
def failedDeleteTrace : List Msg :=
  [Msg.worktreesMsg [wtMain], Msg.key "d", Msg.deletingWorktreeMsg "/r",
   Msg.error "exit status 128"]

/-- The state `failedDeleteTrace` leads to: the deletion is still marked as
running, and the status line shows the error. -/
def failedDeleteModel : model :=
  { initialModel with worktrees := [wtMain], deletingWorktree := true,
                      deletingPath := "/r", statusMessage := "❌ Error: exit status 128" }

/-- Two branches are listed; in the branches view the filter is opened, `f` is
typed and the only match is chosen with enter. -/
def filterEnterTrace : List Msg :=
  [Msg.branchesMsg [brMain, brFeature], Msg.key "tab", Msg.key "/", Msg.key "f",
   Msg.key "enter"]

/-- The state `filterEnterTrace` leads to: the filter is closed and its buffer
empty, the branch list still holds the single match. -/
def filterEnterModel : model :=
  { initialModel with
      allBranches := [brMain, brFeature], branches := [brFeature], view := "branches",
      creatingWorktree := true, creatingForBranch := "feature",
      statusMessage := "Creating worktree for branch 'feature'..." }

/-- Three worktrees in a terminal of 10 rows: the cursor goes to the last one,
then the terminal grows to 24 rows. -/
def resizeTrace : List Msg :=
  [Msg.worktreesMsg [wtMain, wtFeat, wtFix], Msg.windowSizeMsg 80 10, Msg.key "down",
   Msg.key "down", Msg.windowSizeMsg 80 24]

/-- The state `resizeTrace` leads to: viewport of 16 rows, three worktrees, the
scroll offset still at 1. -/
def resizedModel : model :=
  { initialModel with worktrees := [wtMain, wtFeat, wtFix], cursor := 2, scrollOffset := 1,
                      windowWidth := 80, windowHeight := 24, viewportHeight := 16 }

/-- The state after tab and n: the name of a new branch is being entered. -/
def namingModel : model :=
  { initialModel with view := "branches", creatingBranch := true,
                      newBranchInput := (initialModel.newBranchInput.SetValue "").Focus }

/-- The initial state in a terminal of 8 rows: the viewport has no row. -/
def zeroHeightModel : model :=
  { initialModel with windowHeight := 8, viewportHeight := 0 }

/-- The initial state with the cursor on row 25, below the window of 20 rows. -/
def cursorBelowModel : model :=
  { initialModel with cursor := 25 }

/-- The branches view listing the branch `main`, in list mode. -/
def branchListModel : model :=
  { initialModel with view := "branches", branches := [brMain], allBranches := [brMain] }

/-- The state after enter in `branchListModel`: a worktree for `main` is being
created. -/
def branchChosenModel : model :=
  { branchListModel with creatingWorktree := true, creatingForBranch := "main",
                         statusMessage := "Creating worktree for branch 'main'..." }

/-- The worktrees view listing the main worktree. -/
def oneWorktreeModel : model :=
  { initialModel with worktrees := [wtMain] }

/-- The four branches of the test `TestFilterBranches`. -/
def fourBranches : List Branch :=
  [{ Name := "main", Type_ := "local", LastCommit := "" },
   { Name := "feature-branch", Type_ := "local", LastCommit := "" },
   { Name := "bugfix-branch", Type_ := "local", LastCommit := "" },
   { Name := "release-v1.0", Type_ := "local", LastCommit := "" }]

/-- The four branches with the given text in the filter buffer. -/
def queryModel (filterText : String) : model :=
  { initialModel with allBranches := fourBranches,
                      filterInput := initialModel.filterInput.SetValue filterText }

/-- The branches été and main with the text `É` in the filter buffer. -/
def accentQueryModel : model :=
  { initialModel with
      allBranches := [{ Name := "été", Type_ := "local", LastCommit := "" }, brMain],
      filterInput := initialModel.filterInput.SetValue "É" }

/-- Filter mode in the branches view with `f` typed: of the two branches only
`feature` is shown. -/
def filteringModel : model :=
  { initialModel with
      view := "branches", filtering := true,
      allBranches := [brMain, brFeature], branches := [brFeature],
      filterInput := ((initialModel.filterInput.SetValue "f").Focus) }

/-! ## Text functions of the Go library used by `git.go` -/

/-- The function `strings.HasPrefix`. -/
def strings.HasPrefix (s pre : String) : Bool := pre.data.isPrefixOf s.data

/-- The function `strings.TrimPrefix`: `s` without the leading `pre`, or `s`
itself when it does not start with `pre`. -/
def strings.TrimPrefix (s pre : String) : String :=
  if strings.HasPrefix s pre then String.mk (s.data.drop pre.data.length) else s

/-- Splitting a text at every occurrence of one character: the pieces between
the separators, empty pieces included. -/
def splitChars (sep : Char) : List Char → List (List Char)
  | [] => [[]]
  | c :: cs =>
    if c = sep then [] :: splitChars sep cs
    else
      match splitChars sep cs with
      | [] => [[c]]
      | l :: ls => (c :: l) :: ls

/-- The function `strings.Split` for a separator of one character (the source
splits at "\n" and at "|"). -/
def strings.Split (s : String) (sep : Char) : List String :=
  (splitChars sep s.data).map String.mk

/-! ## Listing worktrees (`git.go`, lines 97-128) -/

/-- The state of the loop of `getWorktrees`: the worktrees collected so far
and `currentWorktree`. -/
abbrev ParseState := List Worktree × Worktree

/-- One pass of the loop of `getWorktrees` (lines 108-121). -/
def parseLine (st : ParseState) (line : String) : ParseState :=
  if strings.HasPrefix line "worktree " then
    (if st.2.Path ≠ "" then st.1 ++ [st.2] else st.1,
      { Path := strings.TrimPrefix line "worktree ", Branch := "", Head := "" })
  else if strings.HasPrefix line "branch " then
    (st.1, { st.2 with Branch := strings.TrimPrefix line "branch refs/heads/" })
  else if strings.HasPrefix line "HEAD " then
    (st.1, { st.2 with Head := strings.TrimPrefix line "HEAD " })
  else st

/-- Lines 123-127 of `getWorktrees`: the last worktree is added when it has a path. -/
def flushWorktree (st : ParseState) : List Worktree :=
  if st.2.Path ≠ "" then st.1 ++ [st.2] else st.1

/-- Lines 104-127 of `getWorktrees`: the parsing of the porcelain listing. -/
def parseWorktrees (output : String) : List Worktree :=
  flushWorktree ((strings.Split output '\n').foldl parseLine
    ([], { Path := "", Branch := "", Head := "" }))

/-- The function `getWorktrees`, given the outcome of running
`git worktree list --porcelain`: its output, or the error. -/
def getWorktrees (cmdOutput : Except String String) : Except String (List Worktree) :=
  match cmdOutput with
  | Except.error err => Except.error err
  | Except.ok output => Except.ok (parseWorktrees output)

/-- A worktree record as the porcelain listing shows it: a path, a head commit
and, unless the head is detached, a branch. -/
structure WorktreeRecord where
  path : String
  head : String
  branch : Option String
deriving DecidableEq, Repr

/-- The lines of the listing for one record: `worktree <path>`, `HEAD <head>`
and, for a record with a branch, `branch refs/heads/<branch>`. -/
def recordText (r : WorktreeRecord) : String :=
  "worktree " ++ r.path ++ "\n" ++ ("HEAD " ++ r.head ++ "\n") ++
    (match r.branch with
     | some b => "branch refs/heads/" ++ b ++ "\n"
     | none => "")

/-- The listing for a list of records. -/
def porcelainText : List WorktreeRecord → String
  | [] => ""
  | r :: rs => recordText r ++ porcelainText rs

/-- The worktree a record stands for: an empty `Branch` without a branch line. -/
def recordWorktree (r : WorktreeRecord) : Worktree :=
  { Path := r.path, Branch := r.branch.getD "", Head := r.head }

/-- A worktree with a branch and a worktree with a detached head. -/
def twoRecords : List WorktreeRecord :=
  [{ path := "/r", head := "abc", branch := some "main" },
   { path := "/r-old", head := "def", branch := none }]

/-- A record whose branch name holds a line break. -/
def brokenBranchRecord : WorktreeRecord :=
  { path := "/r", head := "abc", branch := some "a\nb" }

/-! ## Listing branches (`git.go`, lines 130-209) -/

/-- The function `unicode.IsSpace`, which `strings.TrimSpace` uses. -/
def isSpace (c : Char) : Bool :=
  c == ' ' || c == '\t' || c == '\n' || c == '\r' || c.toNat == 0x0b || c.toNat == 0x0c ||
  c.toNat == 0x85 || c.toNat == 0xa0 || c.toNat == 0x1680 ||
  (0x2000 ≤ c.toNat && c.toNat ≤ 0x200a) || c.toNat == 0x2028 || c.toNat == 0x2029 ||
  c.toNat == 0x202f || c.toNat == 0x205f || c.toNat == 0x3000

/-- The function `strings.TrimSpace`: without leading and trailing white space. -/
def strings.TrimSpace (s : String) : String :=
  String.mk ((s.data.dropWhile isSpace).reverse.dropWhile isSpace).reverse

/-- A value of `time.Time` as `time.Parse` returns it for a date with a numeric
zone: the fields of the wall clock and the offset of the zone, in seconds east
of UTC. -/
structure Time where
  year : Nat
  month : Nat
  day : Nat
  hour : Nat
  minute : Nat
  second : Nat
  offset : Int
deriving DecidableEq, Repr

/-- The zero value of `time.Time`: January 1 of year 1, 00:00:00 UTC. -/
def zeroTime : Time :=
  { year := 1, month := 1, day := 1, hour := 0, minute := 0, second := 0, offset := 0 }

/-- The number written by the `n` digits of `cs` from position `i` on, if they
are digits. -/
def digitsAt (cs : List Char) (i n : Nat) : Option Nat :=
  let ds := (cs.drop i).take n
  if ds.length = n ∧ ds.all Char.isDigit then
    some (ds.foldl (fun acc c => 10 * acc + (c.toNat - '0'.toNat)) 0)
  else none

/-- Whether `year` is a leap year. -/
def isLeap (year : Nat) : Bool :=
  year % 4 == 0 && (year % 100 != 0 || year % 400 == 0)

/-- The number of days of a month. -/
def daysIn (year month : Nat) : Nat :=
  if month = 2 then (if isLeap year then 29 else 28)
  else if month = 4 ∨ month = 6 ∨ month = 9 ∨ month = 11 then 30
  else 31

/-- The function `time.Parse` for the layout `2006-01-02 15:04:05 -0700` of
the source, on texts of exactly that shape (four, two and two digits for the
date, two digits each for hour, minute and second, a sign and four digits for
the zone), as git prints a committer date; `none` is the error result, which
includes every field out of range. -/
def timeParse (value : String) : Option Time :=
  let cs := value.data
  if cs.length = 25 ∧ cs[4]? = some '-' ∧ cs[7]? = some '-' ∧ cs[10]? = some ' ' ∧
      cs[13]? = some ':' ∧ cs[16]? = some ':' ∧ cs[19]? = some ' ' ∧
      (cs[20]? = some '+' ∨ cs[20]? = some '-') then
    match digitsAt cs 0 4, digitsAt cs 5 2, digitsAt cs 8 2, digitsAt cs 11 2,
        digitsAt cs 14 2, digitsAt cs 17 2, digitsAt cs 21 2, digitsAt cs 23 2 with
    | some year, some month, some day, some hour, some minute, some second,
        some zh, some zm =>
      if 1 ≤ month ∧ month ≤ 12 ∧ 1 ≤ day ∧ day ≤ daysIn year month ∧ hour < 24 ∧
          minute < 60 ∧ second < 60 ∧ zh ≤ 24 ∧ zm ≤ 60 then
        some { year := year, month := month, day := day, hour := hour, minute := minute,
               second := second,
               offset := (if cs[20]? = some '-' then -1 else 1) * ((zh * 60 + zm) * 60 : Nat) }
      else none
    | _, _, _, _, _, _, _, _ => none
  else none

/-- A number written with at least `width` digits, zeros in front. -/
def padNat (width n : Nat) : String :=
  String.mk (List.replicate (width - (Nat.repr n).length) '0') ++ Nat.repr n

/-- The method `Time.Format` for the layout `2006-01-02 15:04:05` of the
source: the fields of the wall clock, the zone left out. -/
def timeFormat (t : Time) : String :=
  padNat 4 t.year ++ "-" ++ padNat 2 t.month ++ "-" ++ padNat 2 t.day ++ " " ++
    padNat 2 t.hour ++ ":" ++ padNat 2 t.minute ++ ":" ++ padNat 2 t.second

/-- The body of the loop of `getLocalBranches` and `getRemoteBranches` (lines
165-178, 193-206) for the branches of kind `kind`: the branch a line
`name|date` stands for, when the line has exactly two parts. A date that does
not parse gives the zero time, the error being dropped by the source. -/
def branchOfLine (kind : String) (line : String) : Option Branch :=
  if line = "" then none
  else
    match strings.Split line '|' with
    | [name, date] =>
      some { Name := name, Type_ := kind,
             LastCommit := timeFormat ((timeParse date).getD zeroTime) }
    | _ => none

/-- Lines 162-180 of `getLocalBranches` (and 190-208 of `getRemoteBranches`):
the branches listed in the output of `git for-each-ref`. -/
def parseBranches (kind : String) (output : String) : List Branch :=
  (strings.Split (strings.TrimSpace output) '\n').filterMap (branchOfLine kind)

/-- The function `getLocalBranches`, given the outcome of running
`git for-each-ref` on `refs/heads/`. -/
def getLocalBranches (cmdOutput : Except String String) : Except String (List Branch) :=
  match cmdOutput with
  | Except.error err => Except.error err
  | Except.ok output => Except.ok (parseBranches "local" output)

/-- The function `getRemoteBranches`, given the outcome of running
`git for-each-ref` on `refs/remotes/`. -/
def getRemoteBranches (cmdOutput : Except String String) : Except String (List Branch) :=
  match cmdOutput with
  | Except.error err => Except.error err
  | Except.ok output => Except.ok (parseBranches "remote" output)

/-- Comparison of two texts character by character, a proper initial part
being less. -/
def charsLess : List Char → List Char → Bool
  | _, [] => false
  | [], _ :: _ => true
  | a :: as, b :: bs => if a = b then charsLess as bs else decide (a < b)

/-- The comparison `a < b` of two Go strings. -/
def stringLess (a b : String) : Bool := charsLess a.data b.data

/-- The comparison function given to `sort.Slice` in `getBranches` (lines
145-150): with different kinds the local branch is less, with the same kind the
branch with the greater `LastCommit` text is less. -/
def branchLess (a b : Branch) : Bool :=
  if a.Type_ ≠ b.Type_ then a.Type_ == "local"
  else stringLess b.LastCommit a.LastCommit

/-- The library function `sort.Slice`: the elements in an order in which no
element is less than one before it. The library leaves open the order of
elements of which neither is less than the other; here they keep their order
(insertion sort). -/
def sortSlice {α : Type} (less : α → α → Bool) (xs : List α) : List α :=
  List.insertionSort (fun a b => less b a = false) xs

/-- Lines 141-152 of `getBranches`: the local branches followed by the remote
ones, sorted. -/
def sortBranches (localBranches remoteBranches : List Branch) : List Branch :=
  sortSlice branchLess (localBranches ++ remoteBranches)

/-- The function `getBranches`, given the results of `getLocalBranches` and of
`getRemoteBranches`. -/
def getBranches (localResult remoteResult : Except String (List Branch)) :
    Except String (List Branch) :=
  match localResult with
  | Except.error err => Except.error err
  | Except.ok localBranches =>
    match remoteResult with
    | Except.error err => Except.error err
    | Except.ok remoteBranches => Except.ok (sortBranches localBranches remoteBranches)

/-- The number of days from 1970-01-01 to the given day of the civil calendar. -/
def daysFromCivil (year month day : Nat) : Int :=
  let y : Int := if month ≤ 2 then (year : Int) - 1 else year
  let era : Int := y / 400
  let yoe : Int := y - era * 400
  let mp : Int := if month ≤ 2 then (month : Int) + 9 else (month : Int) - 3
  let doy : Int := (153 * mp + 2) / 5 + (day : Int) - 1
  let doe : Int := yoe * 365 + yoe / 4 - yoe / 100 + doy
  era * 146097 + doe - 719468

/-- The instant a parsed date denotes, in seconds since 1970-01-01 00:00:00 UTC
(the method `Time.Unix`). -/
def unixSeconds (t : Time) : Int :=
  daysFromCivil t.year t.month t.day * 86400 + t.hour * 3600 + t.minute * 60 + t.second
    - t.offset

/-- A local branch committed at 10:00 UTC and one committed at 11:00 in the
zone +0500, which is 06:00 UTC, as `git for-each-ref` lists them. -/
def zonesOutput : String :=
  "fresh|2024-01-01 10:00:00 +0000\nstale|2024-01-01 11:00:00 +0500\n"

/-- Two local and two remote branches, not in order. -/
def someLocalBranches : List Branch :=
  [{ Name := "old", Type_ := "local", LastCommit := "2023-05-01 09:00:00" },
   { Name := "new", Type_ := "local", LastCommit := "2024-02-01 09:00:00" }]

/-- Two remote branches, not in order. -/
def someRemoteBranches : List Branch :=
  [{ Name := "origin/old", Type_ := "remote", LastCommit := "2023-05-01 09:00:00" },
   { Name := "origin/new", Type_ := "remote", LastCommit := "2024-03-01 09:00:00" }]

/-! ## The default branch of the remote (`git.go`, lines 285-312) -/

/-- The three commands `getOriginMainBranch` may run:
`git rev-parse --verify origin/main`, `git rev-parse --verify origin/master`
and `git symbolic-ref refs/remotes/origin/HEAD`. -/
inductive Check where
  | verifyMain
  | verifyMaster
  | symbolicRef
deriving DecidableEq, Repr

/-- The function `getOriginMainBranch`, given the outcome `exec c` of each
command `c` (its output, or its error): the result, and the commands that were
run, in order. -/
def getOriginMainBranch (exec : Check → Except String String) :
    Except String String × List Check :=
  match exec Check.verifyMain with
  | Except.ok _ => (Except.ok "origin/main", [Check.verifyMain])
  | Except.error _ =>
    match exec Check.verifyMaster with
    | Except.ok _ => (Except.ok "origin/master", [Check.verifyMain, Check.verifyMaster])
    | Except.error _ =>
      match exec Check.symbolicRef with
      | Except.error _ =>
        (Except.error "could not find origin main branch (tried origin/main, origin/master)",
          [Check.verifyMain, Check.verifyMaster, Check.symbolicRef])
      | Except.ok output =>
        if strings.HasPrefix (strings.TrimSpace output) "refs/remotes/" then
          (Except.ok (strings.TrimPrefix (strings.TrimSpace output) "refs/remotes/"),
            [Check.verifyMain, Check.verifyMaster, Check.symbolicRef])
        else
          (Except.error "could not parse origin main branch reference",
            [Check.verifyMain, Check.verifyMaster, Check.symbolicRef])

/-- Whether an outcome is an error. -/
def failed (r : Except String String) : Prop :=
  match r with
  | Except.error _ => True
  | Except.ok _ => False

/-- The outcomes in a repository whose remote has neither `main` nor `master`
and whose `origin/HEAD` points to the remote branch `trunk`. -/
def trunkExec : Check → Except String String
  | Check.verifyMain => Except.error "exit status 128"
  | Check.verifyMaster => Except.error "exit status 128"
  | Check.symbolicRef => Except.ok "refs/remotes/origin/trunk\n"

/-- The outcomes when `origin/main` is missing and `origin/master` exists. -/
def masterExec : Check → Except String String
  | Check.verifyMain => Except.error "exit status 128"
  | Check.verifyMaster => Except.ok ""
  | Check.symbolicRef => Except.ok "refs/remotes/origin/master\n"

/-- The outcomes when `origin/main` exists. -/
def mainExec : Check → Except String String
  | Check.verifyMain => Except.ok ""
  | Check.verifyMaster => Except.ok ""
  | Check.symbolicRef => Except.ok "refs/remotes/origin/main\n"

/-- The outcomes when the remote has neither `main` nor `master` and
`origin/HEAD` points to the local branch `main`. -/
def localHeadExec : Check → Except String String
  | Check.verifyMain => Except.error "exit status 128"
  | Check.verifyMaster => Except.error "exit status 128"
  | Check.symbolicRef => Except.ok "refs/heads/main\n"

/-- The outcomes when all three commands fail. -/
def noRemoteExec : Check → Except String String :=
  fun _ => Except.error "exit status 128"

/-! ## The messages of the two listing commands (`git.go`, lines 24-42) -/

/-- The message the command built by `getWorktreesCmd` delivers, given the
result of `getWorktrees`. -/
def getWorktreesCmdMsg (result : Except String (List Worktree)) : Msg :=
  match result with
  | Except.error _ => Msg.worktreesMsg []
  | Except.ok worktrees => Msg.worktreesMsg worktrees

/-- The message the command built by `getBranchesCmd` delivers, given the
result of `getBranches`. -/
def getBranchesCmdMsg (result : Except String (List Branch)) : Msg :=
  match result with
  | Except.error _ => Msg.branchesMsg []
  | Except.ok branches => Msg.branchesMsg branches

/-! ## The scroll indicator (`main.go`, lines 550-557) -/

/-- The method `renderScrollIndicator`; `helpStyle` stands for the rendering
`helpStyle.Render` of the lipgloss library. -/
def renderScrollIndicator (helpStyle : String → String) (m : model)
    (currentItems totalItems : Int) : String :=
  if totalItems ≤ m.viewportHeight then ""
  else helpStyle (" (" ++ toString currentItems ++ "/" ++ toString totalItems ++ ")")

/-- A rendering that pads the text on the left, as `helpStyle` does. -/
def padLeftStyle (s : String) : String := "  " ++ s

/-- Thirty items in the initial viewport of 20 rows, scrolled to row 15. -/
def scrolledModel : model :=
  { initialModel with cursor := 29, scrollOffset := 15 }

/-- The branches view in filter mode with the text `ma` typed so far while
three branches are shown and the cursor is on the third. -/
def typedFilterModel : model :=
  { initialModel with
      view := "branches", filtering := true, cursor := 2,
      allBranches := [brMain, brFeature, brMain], branches := [brMain, brFeature, brMain],
      filterInput := ((initialModel.filterInput.SetValue "ma").Focus) }

/-- The state `m1` has the view, the modes, the worktrees, the branches and the
flags of the pending operations of the state `m`. -/
def listStateKept (m m1 : model) : Prop :=
  m1.view = m.view ∧ m1.filtering = m.filtering ∧ m1.creatingBranch = m.creatingBranch ∧
  m1.worktrees = m.worktrees ∧ m1.allBranches = m.allBranches ∧
  m1.deletingWorktree = m.deletingWorktree ∧ m1.deletingPath = m.deletingPath ∧
  m1.creatingWorktree = m.creatingWorktree ∧ m1.creatingForBranch = m.creatingForBranch ∧
  m1.creatingNewBranch = m.creatingNewBranch ∧
  m1.creatingNewBranchName = m.creatingNewBranchName

/-- The state after tab, n and the keys t and d: the name `td` is being entered. -/
def typedNameModel : model :=
  { initialModel with view := "branches", creatingBranch := true,
                      newBranchInput := (initialModel.newBranchInput.SetValue "td").Focus }

/-- The state of the test `TestModelUpdate_DeleteWorktree`: a branch name is
being entered while the worktrees view lists a worktree. -/
def namingOverWorktreesModel : model :=
  { namingModel with view := "worktrees", worktrees := [wtMain] }

/-- A worktree for `main` is being created from the branch list when the
filter is opened; then the creation completes. -/
def filterDuringCreateTrace : List Msg :=
  [Msg.branchesMsg [brMain, brFeature], Msg.key "tab", Msg.key "enter", Msg.key "/",
   Msg.worktreeCreatedMsg "main"]

/-- Four branches, three of them with an `a` in their name. -/
def fourNamedBranches : List Branch :=
  [{ Name := "a1", Type_ := "local", LastCommit := "" },
   { Name := "a2", Type_ := "local", LastCommit := "" },
   { Name := "a3", Type_ := "local", LastCommit := "" },
   { Name := "b1", Type_ := "local", LastCommit := "" }]

/-- In a terminal of 10 rows (a viewport of 2 rows) the four branches are
listed, the filter is opened and the cursor goes down to the fourth branch. -/
def scrollInFilterTrace : List Msg :=
  [Msg.windowSizeMsg 80 10, Msg.branchesMsg fourNamedBranches, Msg.key "tab", Msg.key "/",
   Msg.key "down", Msg.key "down", Msg.key "down"]

/-- The state `filterDuringCreateTrace` leads to: the worktrees view is shown
while the filter is still open. -/
def filterOverWorktreesModel : model :=
  { initialModel with
      branches := [brMain, brFeature], allBranches := [brMain, brFeature],
      filterInput := (initialModel.filterInput.SetValue "").Focus,
      view := "worktrees", filtering := true,
      statusMessage := "✅ Successfully created worktree for branch 'main'" }

/-- The state after `scrollInFilterTrace` and the key a: three branches match,
the cursor is back at 0 and the scroll offset is still 2. -/
def filteredScrolledModel : model :=
  { initialModel with
      branches := fourNamedBranches.take 3, allBranches := fourNamedBranches,
      filterInput := (initialModel.filterInput.SetValue "a").Focus,
      view := "branches", filtering := true, cursor := 0, scrollOffset := 2,
      windowWidth := 80, windowHeight := 10, viewportHeight := 2 }

/-- The state after `scrollInFilterTrace` and esc: all four branches, the
cursor back at 0 and the scroll offset still 2. -/
def escScrolledModel : model :=
  { initialModel with
      branches := fourNamedBranches, allBranches := fourNamedBranches,
      view := "branches", cursor := 0, scrollOffset := 2,
      windowWidth := 80, windowHeight := 10, viewportHeight := 2 }

/-! ## Facts about the branch filter -/

theorem collectBranches_eq_some (allBranches : List Branch) :
    ∀ found : List Match, (∀ mt ∈ found, mt.Index < allBranches.length) →
      collectBranches allBranches found = some (lookupMatches allBranches found)
  | [], _ => rfl
  | mt :: rest, h => by
    have hlt : mt.Index < allBranches.length := h mt (List.mem_cons_self _ _)
    have ih := collectBranches_eq_some allBranches rest
      (fun x hx => h x (List.mem_cons_of_mem _ hx))
    simp [collectBranches, lookupMatches, ih, List.getElem?_eq_getElem hlt]

theorem scanMatches_index_lt (matcher : Matcher) (pattern : String) :
    ∀ (names : List String) (i : Nat) (mt : Match),
      mt ∈ scanMatches matcher pattern i names → mt.Index < i + names.length
  | [], _, _, h => by simp [scanMatches] at h
  | s :: rest, i, mt, h => by
    unfold scanMatches at h
    split at h
    · rcases List.mem_cons.mp h with h1 | h1
      · subst h1; simp
      · have := scanMatches_index_lt matcher pattern rest (i + 1) mt h1
        simp only [List.length_cons]; omega
    · have := scanMatches_index_lt matcher pattern rest (i + 1) mt h
      simp only [List.length_cons]; omega

theorem lookup_scanMatches (matcher : Matcher) (pattern : String) :
    ∀ (suf pre : List Branch),
      lookupMatches (pre ++ suf)
          (scanMatches matcher pattern pre.length (suf.map (fun b => b.Name)))
        = suf.filter (fun b => isSubseqFold matcher.fold pattern.toList b.Name.toList)
  | [], pre => by simp [scanMatches, lookupMatches]
  | b :: rest, pre => by
    have ih := lookup_scanMatches matcher pattern rest (pre ++ [b])
    simp only [List.append_assoc, List.singleton_append, List.length_append,
      List.length_singleton] at ih
    simp only [List.map_cons, scanMatches]
    have hget : (pre ++ b :: rest)[pre.length]? = some b := by
      rw [List.getElem?_append_right (Nat.le_refl _)]; simp
    by_cases hb : isSubseqFold matcher.fold pattern.toList b.Name.toList = true
    · have hf : (b :: rest).filter (fun b => isSubseqFold matcher.fold pattern.toList b.Name.toList)
          = b :: rest.filter (fun b => isSubseqFold matcher.fold pattern.toList b.Name.toList) := by
        rw [List.filter_cons, if_pos hb]
      rw [if_pos hb, hf]
      simp only [lookupMatches, List.filterMap_cons, hget] at ih ⊢
      rw [ih]
    · have hf : (b :: rest).filter (fun b => isSubseqFold matcher.fold pattern.toList b.Name.toList)
          = rest.filter (fun b => isSubseqFold matcher.fold pattern.toList b.Name.toList) := by
        rw [List.filter_cons, if_neg hb]
      rw [if_neg hb, hf]
      exact ih

theorem fuzzyFind_index_lt (matcher : Matcher) (pattern : String)
    (names : List String) (mt : Match) (h : mt ∈ fuzzyFind matcher pattern names) :
    mt.Index < names.length := by
  unfold fuzzyFind at h
  split at h
  · simp at h
  · have h1 := (List.perm_insertionSort _ _).mem_iff.mp h
    simpa using scanMatches_index_lt matcher pattern names 0 mt h1

theorem filteredBranches_perm (matcher : Matcher) (filterText : String)
    (allBranches : List Branch) (h : filterText ≠ "") :
    (filteredBranches matcher filterText allBranches).Perm
      (allBranches.filter (fun b => isSubseqFold matcher.fold filterText.toList b.Name.toList)) := by
  unfold filteredBranches fuzzyFind
  rw [if_neg h]
  have h1 := lookup_scanMatches matcher filterText allBranches []
  simp only [List.nil_append, List.length_nil] at h1
  rw [← h1]
  exact (List.perm_insertionSort _ _).filterMap _

theorem filterBranches_eq (matcher : Matcher) (m : model) :
    filterBranches matcher m = some
      (if m.filterInput.Value = "" then { m with branches := m.allBranches }
       else if m.cursor ≥
           ((filteredBranches matcher m.filterInput.Value m.allBranches).length : Int) then
         { m with branches := filteredBranches matcher m.filterInput.Value m.allBranches,
                  cursor := 0 }
       else
         { m with branches := filteredBranches matcher m.filterInput.Value m.allBranches }) := by
  unfold filterBranches
  by_cases h : m.filterInput.Value = ""
  · simp [h]
  · have hc := collectBranches_eq_some m.allBranches
      (fuzzyFind matcher m.filterInput.Value (m.allBranches.map (fun b => b.Name)))
      (fun mt hmt => by
        simpa using fuzzyFind_index_lt matcher _ _ mt hmt)
    simp only [h, if_false, hc]
    unfold filteredBranches
    split <;> rfl

theorem isSubseqFold_iff (fold : Char → Char) : ∀ (cs ps : List Char),
    isSubseqFold fold ps cs = true ↔ (ps.map fold).Sublist (cs.map fold)
  | [], [] => by simp [isSubseqFold]
  | [], p :: ps => by simp [isSubseqFold]
  | c :: cs, [] => by simp [isSubseqFold]
  | c :: cs, p :: ps => by
    unfold isSubseqFold
    by_cases h : equalFold fold p c = true
    · rw [if_pos h, isSubseqFold_iff fold cs ps]
      have hpc : fold p = fold c := by simpa [equalFold] using h
      simp only [List.map_cons, hpc]
      exact (List.cons_sublist_cons).symm
    · rw [if_neg h, isSubseqFold_iff fold cs (p :: ps)]
      have hpc : fold p ≠ fold c := by simpa [equalFold] using h
      simp only [List.map_cons]
      constructor
      · intro hs; exact List.Sublist.cons _ hs
      · intro hs
        rcases List.sublist_cons_iff.mp hs with h1 | ⟨r, h1, _⟩
        · exact h1
        · exact absurd (List.cons.inj h1).1 hpc

/-! ## The shape of one step -/

theorem updateFilterInput_some (ti : InputUpdate) (matcher : Matcher)
    (m : model) (msg : Msg) :
    ∃ (fi : TextInput) (bs : List Branch) (cur : Int) (cmds : List Cmd),
      updateFilterInput ti matcher m msg =
        some ({ m with filterInput := fi, branches := bs, cursor := cur }, cmds) ∧
      (cur = m.cursor ∨ cur = 0) ∧
      (m.filtering = false → fi = m.filterInput ∧ bs = m.branches ∧ cur = m.cursor ∧ cmds = []) ∧
      (m.filtering = true → fi = (ti m.filterInput msg).1 ∧
        (fi.Value = "" → bs = m.allBranches ∧ cur = m.cursor) ∧
        (fi.Value ≠ "" → bs = filteredBranches matcher fi.Value m.allBranches ∧
          cur = if m.cursor ≥ (bs.length : Int) then 0 else m.cursor)) ∧
      (∀ c ∈ cmds, c = Cmd.inputCmd) := by
  have hcmds : ∀ c ∈ (if (ti m.filterInput msg).2 = true then [Cmd.inputCmd] else []),
      c = Cmd.inputCmd := by
    intro c hc; split at hc <;> simp at hc; exact hc
  unfold updateFilterInput
  by_cases hf : m.filtering = true
  · rw [if_pos hf]
    simp only [filterBranches_eq]
    by_cases hv : (ti m.filterInput msg).1.Value = ""
    · rw [if_pos hv]
      exact ⟨(ti m.filterInput msg).1, m.allBranches, m.cursor, _, rfl, Or.inl rfl,
        fun h => by simp [hf] at h, fun _ => ⟨rfl, fun _ => ⟨rfl, rfl⟩, fun h => absurd hv h⟩, hcmds⟩
    · rw [if_neg hv]
      by_cases hcur : m.cursor ≥
          ((filteredBranches matcher (ti m.filterInput msg).1.Value m.allBranches).length : Int)
      · rw [if_pos hcur]
        exact ⟨(ti m.filterInput msg).1, _, 0, _, rfl, Or.inr rfl,
          fun h => by simp [hf] at h,
          fun _ => ⟨rfl, fun h => absurd h hv, fun _ => ⟨rfl, by rw [if_pos hcur]⟩⟩, hcmds⟩
      · rw [if_neg hcur]
        exact ⟨(ti m.filterInput msg).1, _, m.cursor, _, rfl, Or.inl rfl,
          fun h => by simp [hf] at h,
          fun _ => ⟨rfl, fun h => absurd h hv, fun _ => ⟨rfl, by rw [if_neg hcur]⟩⟩, hcmds⟩
  · rw [if_neg hf]
    exact ⟨m.filterInput, m.branches, m.cursor, [], rfl, Or.inl rfl,
      fun _ => ⟨rfl, rfl, rfl, rfl⟩, fun h => absurd h hf, by simp⟩

/-- What the text inputs leave behind: only the two inputs, the visible
branches and the cursor may differ, and the cursor is kept or reset to 0. -/
theorem updateInputs_some (ti : InputUpdate) (matcher : Matcher)
    (m : model) (msg : Msg) :
    ∃ (fi nbi : TextInput) (bs : List Branch) (cur : Int) (cmds : List Cmd),
      updateInputs ti matcher m msg =
        some ({ m with filterInput := fi, newBranchInput := nbi, branches := bs,
                       cursor := cur }, cmds) ∧
      (cur = m.cursor ∨ cur = 0) ∧
      (m.filtering = false → fi = m.filterInput ∧ bs = m.branches ∧ cur = m.cursor) ∧
      (m.filtering = true → fi = (ti m.filterInput msg).1 ∧
        (fi.Value = "" → bs = m.allBranches ∧ cur = m.cursor) ∧
        (fi.Value ≠ "" → bs = filteredBranches matcher fi.Value m.allBranches ∧
          cur = if m.cursor ≥ (bs.length : Int) then 0 else m.cursor)) ∧
      (m.creatingBranch = false → nbi = m.newBranchInput) ∧
      (m.creatingBranch = true → nbi = (ti m.newBranchInput msg).1) ∧
      (m.filtering = false → m.creatingBranch = false → cmds = []) ∧
      (∀ c ∈ cmds, c = Cmd.inputCmd) := by
  obtain ⟨fi, bs, cur, cmds, h1, hcur, hoff, hon, hcmds⟩ :=
    updateFilterInput_some ti matcher m msg
  unfold updateInputs
  rw [h1]
  unfold updateNewBranchInput
  by_cases hc : m.creatingBranch = true
  · have hc1 : ({ m with filterInput := fi, branches := bs, cursor := cur } : model).creatingBranch
        = true := hc
    simp only [if_pos hc1]
    refine ⟨fi, (ti m.newBranchInput msg).1, bs, cur, _, rfl, hcur,
      fun h => ⟨(hoff h).1, (hoff h).2.1, (hoff h).2.2.1⟩, hon,
      fun h => by simp [hc] at h, fun _ => rfl, fun _ h => by simp [hc] at h, ?_⟩
    intro c hm
    split at hm
    · rcases List.mem_append.mp hm with h | h
      · exact hcmds c h
      · simpa using h
    · exact hcmds c hm
  · have hc1 : ¬ ({ m with filterInput := fi, branches := bs, cursor := cur } : model).creatingBranch
        = true := hc
    simp only [if_neg hc1]
    exact ⟨fi, m.newBranchInput, bs, cur, cmds, rfl, hcur,
      fun h => ⟨(hoff h).1, (hoff h).2.1, (hoff h).2.2.1⟩, hon,
      fun _ => rfl, fun h => absurd h hc, fun h _ => (hoff h).2.2.2, hcmds⟩

theorem finish_inv (P : model → Option Cmd → Prop) (x : model) (cmds : List Cmd)
    (m1 : model) (c : Option Cmd) (hx : P x (finishCmd cmds))
    (h : finish x cmds = some (m1, c)) : P m1 c := by
  unfold finish at h
  injection h with h
  injection h with h1 h2
  exact h1 ▸ h2 ▸ hx

theorem some_inv (P : model → Option Cmd → Prop) (x : model) (cx : Option Cmd)
    (m1 : model) (c : Option Cmd) (hx : P x cx)
    (h : some (x, cx) = some (m1, c)) : P m1 c := by
  injection h with h
  injection h with h1 h2
  exact h1 ▸ h2 ▸ hx

/-- Every outcome of a key press in list mode (lines 224-282). -/
theorem updateKey_cases (P : model → Option Cmd → Prop) (m : model) (cmds : List Cmd)
    (keyStr : String)
    (hquit : keyStr = "ctrl+c" ∨ keyStr = "q" → P m (some Cmd.quit))
    (hopen : ∀ w, keyStr = "enter" → m.view = "worktrees" →
      index? m.worktrees m.cursor = some w → P m (some (Cmd.openWorktreeCmd w)))
    (henter : ∀ b, keyStr = "enter" → m.view = "branches" →
      index? m.branches m.cursor = some b →
      P { m with creatingWorktree := true, creatingForBranch := b.Name,
                 statusMessage := "Creating worktree for branch '" ++ b.Name ++ "'..." }
        (some (Cmd.createWorktreeCmd b)))
    (hup : keyStr = "up" ∨ keyStr = "k" → m.cursor > 0 →
      P (adjustScrollOffset { m with cursor := m.cursor - 1 }) (finishCmd cmds))
    (hdown : keyStr = "down" ∨ keyStr = "j" →
      (m.view = "worktrees" ∧ m.cursor < (m.worktrees.length : Int) - 1 ∨
        m.view = "branches" ∧ m.cursor < (m.branches.length : Int) - 1) →
      P (adjustScrollOffset { m with cursor := m.cursor + 1 }) (finishCmd cmds))
    (htab : keyStr = "tab" → m.filtering = false → m.creatingBranch = false →
      P { m with view := if m.view = "worktrees" then "branches" else "worktrees",
                 cursor := 0, scrollOffset := 0 } (finishCmd cmds))
    (hfilter : keyStr = "/" ∨ keyStr = "f" → m.view = "branches" → m.filtering = false →
      m.creatingBranch = false →
      P { m with filtering := true, filterInput := (m.filterInput.SetValue "").Focus }
        (finishCmd (cmds ++ [Cmd.blink])))
    (hnew : keyStr = "n" → m.view = "branches" → m.filtering = false →
      m.creatingBranch = false →
      P { m with creatingBranch := true,
                 newBranchInput := (m.newBranchInput.SetValue "").Focus }
        (finishCmd (cmds ++ [Cmd.blink])))
    (hdel : ∀ w, keyStr = "d" → m.filtering = false → m.creatingBranch = false →
      m.deletingWorktree = false → m.view = "worktrees" →
      index? m.worktrees m.cursor = some w → P m (some (Cmd.deleteWorktreeCmd w)))
    (hsame : P m (finishCmd cmds))
    (m1 : model) (c : Option Cmd) (h : updateKey m cmds keyStr = some (m1, c)) : P m1 c := by
  unfold updateKey at h
  by_cases k1 : keyStr = "ctrl+c" ∨ keyStr = "q"
  · rw [if_pos k1] at h
    exact some_inv P _ _ _ _ (hquit k1) h
  rw [if_neg k1] at h
  by_cases k2 : keyStr = "enter"
  · rw [if_pos k2] at h
    by_cases e1 : m.view = "worktrees" ∧ m.worktrees.length > 0
    · rw [if_pos e1] at h
      cases hidx : index? m.worktrees m.cursor with
      | none => rw [hidx] at h; cases h
      | some w =>
        rw [hidx] at h
        exact some_inv P _ _ _ _ (hopen w k2 e1.1 hidx) h
    rw [if_neg e1] at h
    by_cases e2 : m.view = "branches" ∧ m.branches.length > 0
    · rw [if_pos e2] at h
      cases hidx : index? m.branches m.cursor with
      | none => rw [hidx] at h; cases h
      | some b =>
        rw [hidx] at h
        exact some_inv P _ _ _ _ (henter b k2 e2.1 hidx) h
    rw [if_neg e2] at h
    exact finish_inv P _ _ _ _ hsame h
  rw [if_neg k2] at h
  by_cases k3 : keyStr = "up" ∨ keyStr = "k"
  · rw [if_pos k3] at h
    by_cases e1 : m.cursor > 0
    · rw [if_pos e1] at h
      exact finish_inv P _ _ _ _ (hup k3 e1) h
    rw [if_neg e1] at h
    exact finish_inv P _ _ _ _ hsame h
  rw [if_neg k3] at h
  by_cases k4 : keyStr = "down" ∨ keyStr = "j"
  · rw [if_pos k4] at h
    by_cases e1 : m.view = "worktrees" ∧ m.cursor < (m.worktrees.length : Int) - 1
    · rw [if_pos e1] at h
      exact finish_inv P _ _ _ _ (hdown k4 (Or.inl e1)) h
    rw [if_neg e1] at h
    by_cases e2 : m.view = "branches" ∧ m.cursor < (m.branches.length : Int) - 1
    · rw [if_pos e2] at h
      exact finish_inv P _ _ _ _ (hdown k4 (Or.inr e2)) h
    rw [if_neg e2] at h
    exact finish_inv P _ _ _ _ hsame h
  rw [if_neg k4] at h
  by_cases k5 : keyStr = "tab"
  · rw [if_pos k5] at h
    by_cases e1 : m.filtering = false ∧ m.creatingBranch = false
    · rw [if_pos e1] at h
      exact finish_inv P _ _ _ _ (htab k5 e1.1 e1.2) h
    rw [if_neg e1] at h
    exact finish_inv P _ _ _ _ hsame h
  rw [if_neg k5] at h
  by_cases k6 : (keyStr = "/" ∨ keyStr = "f") ∧ m.view = "branches" ∧ m.filtering = false
      ∧ m.creatingBranch = false
  · rw [if_pos k6] at h
    exact finish_inv P _ _ _ _ (hfilter k6.1 k6.2.1 k6.2.2.1 k6.2.2.2) h
  rw [if_neg k6] at h
  by_cases k7 : keyStr = "n" ∧ m.view = "branches" ∧ m.filtering = false
      ∧ m.creatingBranch = false
  · rw [if_pos k7] at h
    exact finish_inv P _ _ _ _ (hnew k7.1 k7.2.1 k7.2.2.1 k7.2.2.2) h
  rw [if_neg k7] at h
  by_cases k8 : keyStr = "d" ∧ m.filtering = false ∧ m.creatingBranch = false
      ∧ m.deletingWorktree = false ∧ m.view = "worktrees" ∧ m.worktrees.length > 0
  · rw [if_pos k8] at h
    cases hidx : index? m.worktrees m.cursor with
    | none => rw [hidx] at h; cases h
    | some w =>
      rw [hidx] at h
      exact some_inv P _ _ _ _
        (hdel w k8.1 k8.2.1 k8.2.2.1 k8.2.2.2.1 k8.2.2.2.2.1 hidx) h
  rw [if_neg k8] at h
  exact finish_inv P _ _ _ _ hsame h

/-- Every outcome of a key press in a text-entry mode (lines 178-221). -/
theorem updateInputKey_cases (P : model → Option Cmd → Prop) (m : model) (cmds : List Cmd)
    (keyStr : String)
    (hquit : keyStr = "ctrl+c" → P m (some Cmd.quit))
    (hescF : keyStr = "esc" → m.filtering = true →
      P { m with filtering := false, filterInput := (m.filterInput.SetValue "").Blur,
                 branches := m.allBranches, cursor := 0 } (teaBatch cmds))
    (hescC : keyStr = "esc" → m.filtering = false → m.creatingBranch = true →
      P { m with creatingBranch := false,
                 newBranchInput := (m.newBranchInput.SetValue "").Blur,
                 view := "branches" } (teaBatch cmds))
    (hcreate : keyStr = "enter" → m.creatingBranch = true → m.newBranchInput.Value ≠ "" →
      P m (some (Cmd.createNewBranchWorktreeCmd m.newBranchInput.Value)))
    (henter : ∀ b, keyStr = "enter" → m.filtering = true →
      index? m.branches m.cursor = some b →
      P { m with filtering := false, filterInput := (m.filterInput.SetValue "").Blur,
                 creatingWorktree := true, creatingForBranch := b.Name,
                 statusMessage := "Creating worktree for branch '" ++ b.Name ++ "'..." }
        (some (Cmd.createWorktreeCmd b)))
    (hup : keyStr = "up" ∨ keyStr = "k" → m.filtering = true → m.cursor > 0 →
      P (adjustScrollOffset { m with cursor := m.cursor - 1 }) (teaBatch cmds))
    (hdown : keyStr = "down" ∨ keyStr = "j" → m.filtering = true →
      m.cursor < (m.branches.length : Int) - 1 →
      P (adjustScrollOffset { m with cursor := m.cursor + 1 }) (teaBatch cmds))
    (hsame : P m (teaBatch cmds))
    (m1 : model) (c : Option Cmd) (h : updateInputKey m cmds keyStr = some (m1, c)) :
    P m1 c := by
  unfold updateInputKey at h
  by_cases k1 : keyStr = "ctrl+c"
  · rw [if_pos k1] at h
    exact some_inv P _ _ _ _ (hquit k1) h
  rw [if_neg k1] at h
  by_cases k2 : keyStr = "esc"
  · rw [if_pos k2] at h
    by_cases e1 : m.filtering = true
    · rw [if_pos e1] at h
      exact some_inv P _ _ _ _ (hescF k2 e1) h
    rw [if_neg e1] at h
    by_cases e2 : m.creatingBranch = true
    · rw [if_pos e2] at h
      exact some_inv P _ _ _ _ (hescC k2 (by simpa using e1) e2) h
    rw [if_neg e2] at h
    exact some_inv P _ _ _ _ hsame h
  rw [if_neg k2] at h
  by_cases k3 : keyStr = "enter"
  · rw [if_pos k3] at h
    by_cases e1 : m.creatingBranch = true ∧ m.newBranchInput.Value ≠ ""
    · rw [if_pos e1] at h
      exact some_inv P _ _ _ _ (hcreate k3 e1.1 e1.2) h
    rw [if_neg e1] at h
    by_cases e2 : m.filtering = true ∧ m.branches.length > 0
    · rw [if_pos e2] at h
      cases hidx : index? m.branches m.cursor with
      | none => rw [hidx] at h; cases h
      | some b =>
        rw [hidx] at h
        exact some_inv P _ _ _ _ (henter b k3 e2.1 hidx) h
    rw [if_neg e2] at h
    exact some_inv P _ _ _ _ hsame h
  rw [if_neg k3] at h
  by_cases k4 : keyStr = "up" ∨ keyStr = "k"
  · rw [if_pos k4] at h
    by_cases e1 : m.filtering = true ∧ m.cursor > 0
    · rw [if_pos e1] at h
      exact some_inv P _ _ _ _ (hup k4 e1.1 e1.2) h
    rw [if_neg e1] at h
    exact some_inv P _ _ _ _ hsame h
  rw [if_neg k4] at h
  by_cases k5 : keyStr = "down" ∨ keyStr = "j"
  · rw [if_pos k5] at h
    by_cases e1 : m.filtering = true ∧ m.cursor < (m.branches.length : Int) - 1
    · rw [if_pos e1] at h
      exact some_inv P _ _ _ _ (hdown k5 e1.1 e1.2) h
    rw [if_neg e1] at h
    exact some_inv P _ _ _ _ hsame h
  rw [if_neg k5] at h
  exact some_inv P _ _ _ _ hsame h

theorem filterBranches_some (matcher : Matcher) (m : model) :
    ∃ (bs : List Branch) (cur : Int),
      filterBranches matcher m = some { m with branches := bs, cursor := cur } ∧
      (cur = m.cursor ∨ cur = 0) ∧
      (m.filterInput.Value = "" → bs = m.allBranches ∧ cur = m.cursor) ∧
      (m.filterInput.Value ≠ "" →
        bs = filteredBranches matcher m.filterInput.Value m.allBranches ∧
        cur = if m.cursor ≥ (bs.length : Int) then 0 else m.cursor) := by
  rw [filterBranches_eq]
  by_cases hv : m.filterInput.Value = ""
  · rw [if_pos hv]
    exact ⟨m.allBranches, m.cursor, rfl, Or.inl rfl, fun _ => ⟨rfl, rfl⟩, fun h => absurd hv h⟩
  · rw [if_neg hv]
    by_cases hcur : m.cursor ≥
        ((filteredBranches matcher m.filterInput.Value m.allBranches).length : Int)
    · rw [if_pos hcur]
      exact ⟨_, 0, rfl, Or.inr rfl, fun h => absurd h hv, fun _ => ⟨rfl, by rw [if_pos hcur]⟩⟩
    · rw [if_neg hcur]
      exact ⟨_, m.cursor, rfl, Or.inl rfl, fun h => absurd h hv,
        fun _ => ⟨rfl, by rw [if_neg hcur]⟩⟩

/-- The state the error branch of `Update` (lines 344-355) returns. -/
theorem errorBranch_eq (m : model) (err : String) :
    ({ (if (if m.creatingNewBranch = true then
              { m with creatingNewBranch := false, creatingNewBranchName := "" } else m
            ).creatingWorktree = true then
          { (if m.creatingNewBranch = true then
              { m with creatingNewBranch := false, creatingNewBranchName := "" } else m) with
            creatingWorktree := false, creatingForBranch := "" }
        else (if m.creatingNewBranch = true then
              { m with creatingNewBranch := false, creatingNewBranchName := "" } else m))
       with statusMessage := "❌ Error: " ++ err } : model) =
    { m with creatingNewBranch := false,
             creatingNewBranchName := if m.creatingNewBranch = true then "" else m.creatingNewBranchName,
             creatingWorktree := false,
             creatingForBranch := if m.creatingWorktree = true then "" else m.creatingForBranch,
             statusMessage := "❌ Error: " ++ err } := by
  rcases m with ⟨wt, br, ab, fi, cur, sel, vw, fl, vh, so, nbi, cb, ww, wh, dw, dp, cw, cfb, cnb,
    cnbn, sm⟩
  cases cnb <;> cases cw <;> rfl

/-- Every outcome of the switch on the message type (lines 173-361). -/
theorem handleMsg_cases (P : model → Option Cmd → Prop) (matcher : Matcher)
    (m : model) (cmds : List Cmd) (msg : Msg)
    (hkeyI : ∀ k, msg = Msg.key k → m.filtering = true ∨ m.creatingBranch = true →
      ∀ m1 c, updateInputKey m cmds k = some (m1, c) → P m1 c)
    (hkeyL : ∀ k, msg = Msg.key k → m.filtering = false → m.creatingBranch = false →
      ∀ m1 c, updateKey m cmds k = some (m1, c) → P m1 c)
    (hwt : ∀ ws, msg = Msg.worktreesMsg ws → P { m with worktrees := ws } (finishCmd cmds))
    (hbr : ∀ bs, msg = Msg.branchesMsg bs → ∀ (vis : List Branch) (cur : Int),
      (cur = m.cursor ∨ cur = 0) →
      (m.filterInput.Value = "" → vis = bs ∧ cur = m.cursor) →
      (m.filterInput.Value ≠ "" → vis = filteredBranches matcher m.filterInput.Value bs ∧
        cur = if m.cursor ≥ (vis.length : Int) then 0 else m.cursor) →
      P { m with allBranches := bs, branches := vis, cursor := cur } (finishCmd cmds))
    (hcreating : ∀ branchName, msg = Msg.newBranchCreatingMsg branchName →
      P { m with creatingNewBranch := true, creatingNewBranchName := branchName,
                 statusMessage :=
                   "Creating new branch '" ++ branchName ++ "' and worktree..." }
        (some (Cmd.performCreateNewBranchWorktreeCmd branchName)))
    (hcreated : msg = Msg.newBranchCreatedMsg →
      P { m with creatingBranch := false, creatingNewBranch := false,
                 creatingNewBranchName := "",
                 newBranchInput := (m.newBranchInput.SetValue "").Blur,
                 view := "worktrees", cursor := 0, scrollOffset := 0,
                 statusMessage := "✅ New branch and worktree created successfully" }
        (teaBatch [Cmd.getWorktreesCmd, Cmd.clearStatusAfterDelay]))
    (hdeleting : ∀ path, msg = Msg.deletingWorktreeMsg path → ∀ w,
      m.worktrees.find? (fun worktree => worktree.Path == path) = some w →
      P { m with deletingWorktree := true, deletingPath := path }
        (some (Cmd.performDeleteWorktreeCmd w)))
    (hdeletingNone : ∀ path, msg = Msg.deletingWorktreeMsg path →
      m.worktrees.find? (fun worktree => worktree.Path == path) = none →
      P { m with deletingWorktree := true, deletingPath := path } none)
    (hdeleted : msg = Msg.worktreeDeletedMsg →
      P { m with deletingWorktree := false, deletingPath := "" } (some Cmd.getWorktreesCmd))
    (hwcreated : ∀ branch, msg = Msg.worktreeCreatedMsg branch →
      P { m with view := "worktrees", cursor := 0, scrollOffset := 0,
                 creatingWorktree := false, creatingForBranch := "",
                 statusMessage :=
                   "✅ Successfully created worktree for branch '" ++ branch ++ "'" }
        (teaBatch [Cmd.getWorktreesCmd, Cmd.clearStatusAfterDelay]))
    (hresize : ∀ Width Height, msg = Msg.windowSizeMsg Width Height →
      P { m with windowWidth := Width, windowHeight := Height,
                 viewportHeight := Height - 8 } (finishCmd cmds))
    (hclear : msg = Msg.clearStatusMsg → P { m with statusMessage := "" } (finishCmd cmds))
    (herror : ∀ err, msg = Msg.error err →
      P { m with creatingNewBranch := false,
                 creatingNewBranchName :=
                   if m.creatingNewBranch = true then "" else m.creatingNewBranchName,
                 creatingWorktree := false,
                 creatingForBranch :=
                   if m.creatingWorktree = true then "" else m.creatingForBranch,
                 statusMessage := "❌ Error: " ++ err }
        (some Cmd.clearStatusAfterDelay))
    (hother : msg = Msg.other → P m (finishCmd cmds))
    (m1 : model) (c : Option Cmd) (h : handleMsg matcher m cmds msg = some (m1, c)) :
    P m1 c := by
  unfold handleMsg at h
  cases msg with
  | key k =>
    simp only at h
    by_cases hm : m.filtering = true ∨ m.creatingBranch = true
    · rw [if_pos hm] at h
      exact hkeyI k rfl hm m1 c h
    · rw [if_neg hm] at h
      have hf : m.filtering = false := by
        cases hx : m.filtering
        · rfl
        · exact absurd (Or.inl hx) hm
      have hc : m.creatingBranch = false := by
        cases hx : m.creatingBranch
        · rfl
        · exact absurd (Or.inr hx) hm
      exact hkeyL k rfl hf hc m1 c h
  | worktreesMsg ws => exact finish_inv P _ _ _ _ (hwt ws rfl) h
  | branchesMsg bs =>
    simp only at h
    obtain ⟨vis, cur, hfb, h1, h2, h3⟩ :=
      filterBranches_some matcher { m with allBranches := bs, branches := bs }
    rw [hfb] at h
    exact finish_inv P _ _ _ _ (hbr bs rfl vis cur h1 h2 h3) h
  | newBranchCreatingMsg n => exact some_inv P _ _ _ _ (hcreating n rfl) h
  | newBranchCreatedMsg => exact some_inv P _ _ _ _ (hcreated rfl) h
  | deletingWorktreeMsg path =>
    simp only at h
    cases hfind : m.worktrees.find? (fun worktree => worktree.Path == path) with
    | none =>
      rw [hfind] at h
      exact some_inv P _ _ _ _ (hdeletingNone path rfl hfind) h
    | some w =>
      rw [hfind] at h
      exact some_inv P _ _ _ _ (hdeleting path rfl w hfind) h
  | worktreeDeletedMsg => exact some_inv P _ _ _ _ (hdeleted rfl) h
  | worktreeCreatedMsg branch => exact some_inv P _ _ _ _ (hwcreated branch rfl) h
  | windowSizeMsg W H => exact finish_inv P _ _ _ _ (hresize W H rfl) h
  | clearStatusMsg => exact finish_inv P _ _ _ _ (hclear rfl) h
  | error err =>
    simp only at h
    rw [errorBranch_eq] at h
    exact some_inv P _ _ _ _ (herror err rfl) h
  | other => exact finish_inv P _ _ _ _ (hother rfl) h

/-- A step of `Update` is a step of the text inputs followed by the switch on
the message type. -/
theorem Update_some (ti : InputUpdate) (matcher : Matcher)
    (m0 m1 : model) (msg : Msg) (c : Option Cmd)
    (h : Update ti matcher m0 msg = some (m1, c)) :
    ∃ (fi nbi : TextInput) (bs : List Branch) (cur : Int) (cmds : List Cmd),
      handleMsg matcher { m0 with filterInput := fi, newBranchInput := nbi, branches := bs,
                                  cursor := cur } cmds msg = some (m1, c) ∧
      (cur = m0.cursor ∨ cur = 0) ∧
      (m0.filtering = false → fi = m0.filterInput ∧ bs = m0.branches ∧ cur = m0.cursor) ∧
      (m0.filtering = true → fi = (ti m0.filterInput msg).1 ∧
        (fi.Value = "" → bs = m0.allBranches ∧ cur = m0.cursor) ∧
        (fi.Value ≠ "" → bs = filteredBranches matcher fi.Value m0.allBranches ∧
          cur = if m0.cursor ≥ (bs.length : Int) then 0 else m0.cursor)) ∧
      (m0.creatingBranch = false → nbi = m0.newBranchInput) ∧
      (m0.creatingBranch = true → nbi = (ti m0.newBranchInput msg).1) ∧
      (m0.filtering = false → m0.creatingBranch = false → cmds = []) ∧
      (∀ c ∈ cmds, c = Cmd.inputCmd) := by
  obtain ⟨fi, nbi, bs, cur, cmds, hu, rest⟩ := updateInputs_some ti matcher m0 msg
  unfold Update at h
  rw [hu] at h
  exact ⟨fi, nbi, bs, cur, cmds, h, rest⟩

theorem step_exclusive (ti : InputUpdate) (matcher : Matcher)
    (m0 m1 : model) (msg : Msg) (c : Option Cmd)
    (h : Update ti matcher m0 msg = some (m1, c))
    (hI : ¬(m0.filtering = true ∧ m0.creatingBranch = true)) :
    ¬(m1.filtering = true ∧ m1.creatingBranch = true) := by
  obtain ⟨fi, nbi, bs, cur, cmds, hh, -⟩ := Update_some ti matcher m0 m1 msg c h
  refine handleMsg_cases (fun x _ => ¬(x.filtering = true ∧ x.creatingBranch = true))
    matcher _ cmds msg ?_ ?_ ?_ ?_ ?_ ?_ ?_ ?_ ?_ ?_ ?_ ?_ ?_ ?_ m1 c hh
  · intro k _ _
    refine updateInputKey_cases (fun x _ => ¬(x.filtering = true ∧ x.creatingBranch = true))
      _ cmds k ?_ ?_ ?_ ?_ ?_ ?_ ?_ ?_
    · intro _; exact hI
    · intro _ _; simp
    · intro _ _ _; simp
    · intro _ _ _; exact hI
    · intro b _ _ _; simp
    · intro _ _ _; unfold adjustScrollOffset; (repeat' split) <;> exact hI
    · intro _ _ _; unfold adjustScrollOffset; (repeat' split) <;> exact hI
    · exact hI
  · intro k _ hf hc
    refine updateKey_cases (fun x _ => ¬(x.filtering = true ∧ x.creatingBranch = true))
      _ cmds k ?_ ?_ ?_ ?_ ?_ ?_ ?_ ?_ ?_ ?_
    · intro _; exact hI
    · intro _ _ _ _; exact hI
    · intro _ _ _ _; exact hI
    · intro _ _; unfold adjustScrollOffset; (repeat' split) <;> exact hI
    · intro _ _; unfold adjustScrollOffset; (repeat' split) <;> exact hI
    · intro _ _ _; exact hI
    · intro _ _ _ hcb; simpa using hcb
    · intro _ _ hfl _; simpa using hfl
    · intro _ _ _ _ _ _ _; exact hI
    · exact hI
  · intro _ _; exact hI
  · intro _ _ _ _ _ _ _; exact hI
  · intro _ _; exact hI
  · intro _; simp
  · intro _ _ _ _; exact hI
  · intro _ _ _; exact hI
  · intro _; exact hI
  · intro _ _; exact hI
  · intro _ _ _; exact hI
  · intro _; exact hI
  · intro _ _; exact hI
  · intro _; exact hI

/-! ## Reachable states -/

theorem reachable_of_run (ti : InputUpdate) (matcher : Matcher) :
    ∀ (msgs : List Msg) (m m1 : model), Reachable ti matcher m →
      run ti matcher m msgs = some m1 → Reachable ti matcher m1
  | [], m, m1, hm, h => by
    simp only [run, Option.some.injEq] at h
    exact h ▸ hm
  | msg :: rest, m, m1, hm, h => by
    unfold run at h
    cases hu : Update ti matcher m msg with
    | none => rw [hu] at h; cases h
    | some p =>
      obtain ⟨m2, c⟩ := p
      rw [hu] at h
      exact reachable_of_run ti matcher rest m2 m1 (Reachable.step msg hm hu) h

/-! ## C1, C2: the cursor after a refresh -/

/-- C1 (the code aborts): after the worktree under the cursor has been deleted
and the list refreshed, the state is reachable, the worktrees view shows one
worktree with the cursor at index 1, and pressing enter or d makes `Update`
read `m.worktrees[m.cursor]` out of range. -/
theorem C1_key_after_refresh_aborts :
    Reachable typingInput flatMatcher staleCursorModel ∧
      staleCursorModel.view = "worktrees" ∧
      staleCursorModel.worktrees.length = 1 ∧ staleCursorModel.cursor = 1 ∧
      index? staleCursorModel.worktrees staleCursorModel.cursor = none ∧
      Update typingInput flatMatcher staleCursorModel (Msg.key "enter") = none ∧
      Update typingInput flatMatcher staleCursorModel (Msg.key "d") = none :=
  ⟨reachable_of_run _ _ deleteLastTrace _ _ Reachable.init rfl, rfl, rfl, rfl, rfl, rfl, rfl⟩

/-- C2 (the code breaks the invariant): the state reached by deleting the last
worktree of two and refreshing the list shows the worktrees view with a
non-empty list of length 1 and the cursor at 1, outside the list. -/
theorem C2_cursor_outside_after_refresh :
    run typingInput flatMatcher initialModel deleteLastTrace = some staleCursorModel ∧
      Reachable typingInput flatMatcher staleCursorModel ∧
      staleCursorModel.view = "worktrees" ∧ staleCursorModel.worktrees ≠ [] ∧
      ¬ (staleCursorModel.cursor < (staleCursorModel.worktrees.length : Int)) :=
  ⟨rfl, reachable_of_run _ _ deleteLastTrace _ _ Reachable.init rfl, rfl, by decide, by decide⟩

/-! ## C3: an error result and the pending flags -/

/-- C3 (the code keeps the flag): when the deletion of a worktree fails, the
error result leaves `deletingWorktree` true and `deletingPath` set; the state
is reachable, and from then on the d key returns no command. -/
theorem C3_failed_delete_keeps_flag :
    run typingInput flatMatcher initialModel failedDeleteTrace = some failedDeleteModel ∧
      Reachable typingInput flatMatcher failedDeleteModel ∧
      failedDeleteModel.deletingWorktree = true ∧ failedDeleteModel.deletingPath = "/r" ∧
      Update typingInput flatMatcher failedDeleteModel (Msg.key "d")
        = some (failedDeleteModel, none) :=
  ⟨rfl, reachable_of_run _ _ failedDeleteTrace _ _ Reachable.init rfl, rfl, rfl, rfl⟩

/-! ## C4: the visible branches after enter in filter mode -/

/-- C4 (the code keeps the filtered list): after enter in filter mode the state
is reachable, filtering is off and the filter buffer is empty, yet `branches`
holds only the match and differs from `allBranches`. -/
theorem C4_enter_keeps_filtered_list :
    run typingInput flatMatcher initialModel filterEnterTrace = some filterEnterModel ∧
      Reachable typingInput flatMatcher filterEnterModel ∧
      filterEnterModel.filtering = false ∧ filterEnterModel.filterInput.Value = "" ∧
      filterEnterModel.branches = [brFeature] ∧
      filterEnterModel.allBranches = [brMain, brFeature] ∧
      filterEnterModel.branches ≠ filterEnterModel.allBranches :=
  ⟨rfl, reachable_of_run _ _ filterEnterTrace _ _ Reachable.init rfl, rfl, rfl, rfl, rfl,
    by decide⟩

/-! ## C5: mode exclusivity -/

/-- C5: in every reachable state, `filtering` and `creatingBranch` are never
both true. -/
theorem C5_mode_exclusive (ti : InputUpdate) (matcher : Matcher)
    (m : model) (h : Reachable ti matcher m) :
    ¬(m.filtering = true ∧ m.creatingBranch = true) := by
  induction h with
  | init => simp [initialModel]
  | step msg _ hu ih => exact step_exclusive ti matcher _ _ msg _ hu ih

/-- Witness for C5: the state reached by tab and n enters a branch name and
does not filter. -/
theorem C5_mode_exclusive_witness :
    Reachable typingInput flatMatcher namingModel ∧ namingModel.creatingBranch = true ∧
      ¬(namingModel.filtering = true ∧ namingModel.creatingBranch = true) :=
  ⟨reachable_of_run _ _ [Msg.key "tab", Msg.key "n"] _ _ Reachable.init rfl, rfl,
    C5_mode_exclusive typingInput flatMatcher namingModel
      (reachable_of_run _ _ [Msg.key "tab", Msg.key "n"] _ _ Reachable.init rfl)⟩

/-! ## C6: the cursor inside the window -/

/-- C6 fails as stated: with a viewport of height 0 (a terminal of 8 rows),
cursor 0 and offset 0, `adjustScrollOffset` moves the offset to 1, past the
cursor. -/
theorem C6_counterexample :
    zeroHeightModel.viewportHeight = 0 ∧
      (adjustScrollOffset zeroHeightModel).scrollOffset = 1 ∧
      ¬((adjustScrollOffset zeroHeightModel).scrollOffset
            ≤ (adjustScrollOffset zeroHeightModel).cursor ∧
          (adjustScrollOffset zeroHeightModel).cursor
            < (adjustScrollOffset zeroHeightModel).scrollOffset
              + (adjustScrollOffset zeroHeightModel).viewportHeight) := by
  decide

/-- C6, amended: for a viewport of at least one row, any cursor and any prior
offset, after `adjustScrollOffset` the cursor lies inside the window; only the
offset changes, to the cursor when the cursor was above the window, to
`cursor - viewportHeight + 1` when it was below, and not at all otherwise. -/
theorem C6_adjustScrollOffset_window (m : model) (hv : 1 ≤ m.viewportHeight) :
    (adjustScrollOffset m).scrollOffset ≤ (adjustScrollOffset m).cursor ∧
      (adjustScrollOffset m).cursor
        < (adjustScrollOffset m).scrollOffset + (adjustScrollOffset m).viewportHeight ∧
      adjustScrollOffset m = { m with scrollOffset := (adjustScrollOffset m).scrollOffset } ∧
      (m.cursor < m.scrollOffset → (adjustScrollOffset m).scrollOffset = m.cursor) ∧
      (m.scrollOffset + m.viewportHeight ≤ m.cursor →
        (adjustScrollOffset m).scrollOffset = m.cursor - m.viewportHeight + 1) ∧
      (m.scrollOffset ≤ m.cursor → m.cursor < m.scrollOffset + m.viewportHeight →
        (adjustScrollOffset m).scrollOffset = m.scrollOffset) := by
  unfold adjustScrollOffset
  by_cases h1 : m.cursor < m.scrollOffset
  · rw [if_pos h1]
    refine ⟨le_refl _, ?_, rfl, fun _ => rfl, fun h => ?_, fun h => ?_⟩
    · show m.cursor < m.cursor + m.viewportHeight
      omega
    · show m.cursor = _
      omega
    · omega
  · rw [if_neg h1]
    by_cases h2 : m.cursor ≥ m.scrollOffset + m.viewportHeight
    · rw [if_pos h2]
      refine ⟨?_, ?_, rfl, fun h => absurd h h1, fun _ => rfl, fun _ h => ?_⟩
      · show m.cursor - m.viewportHeight + 1 ≤ m.cursor
        omega
      · show m.cursor < m.cursor - m.viewportHeight + 1 + m.viewportHeight
        omega
      · omega
    · rw [if_neg h2]
      refine ⟨by omega, by omega, rfl, fun h => absurd h h1, fun h => ?_, fun _ _ => rfl⟩
      omega

/-- Witness for C6: a cursor on row 25 below a window of 20 rows starting at 0
moves the offset to 6. -/
theorem C6_adjustScrollOffset_window_witness :
    (1 : Int) ≤ cursorBelowModel.viewportHeight ∧
      (adjustScrollOffset cursorBelowModel).scrollOffset = 6 ∧
      (adjustScrollOffset cursorBelowModel).scrollOffset
        ≤ (adjustScrollOffset cursorBelowModel).cursor :=
  ⟨by decide, by decide,
    (C6_adjustScrollOffset_window cursorBelowModel (by decide)).1⟩

/-! ## C7: the scroll offset -/

theorem adjustScrollOffset_nonneg (x : model) (h1 : 0 ≤ x.cursor) (h2 : 0 ≤ x.scrollOffset) :
    0 ≤ (adjustScrollOffset x).cursor ∧ 0 ≤ (adjustScrollOffset x).scrollOffset := by
  unfold adjustScrollOffset
  by_cases c1 : x.cursor < x.scrollOffset
  · rw [if_pos c1]; exact ⟨h1, h1⟩
  · rw [if_neg c1]
    by_cases c2 : x.cursor ≥ x.scrollOffset + x.viewportHeight
    · rw [if_pos c2]
      refine ⟨h1, ?_⟩
      show 0 ≤ x.cursor - x.viewportHeight + 1
      omega
    · rw [if_neg c2]; exact ⟨h1, h2⟩

theorem step_nonneg (ti : InputUpdate) (matcher : Matcher)
    (m0 m1 : model) (msg : Msg) (c : Option Cmd)
    (h : Update ti matcher m0 msg = some (m1, c))
    (hI : 0 ≤ m0.cursor ∧ 0 ≤ m0.scrollOffset) :
    0 ≤ m1.cursor ∧ 0 ≤ m1.scrollOffset := by
  obtain ⟨fi, nbi, bs, cur, cmds, hh, hcur, -⟩ := Update_some ti matcher m0 m1 msg c h
  have hc0 : 0 ≤ cur := by
    rcases hcur with h1 | h1
    · rw [h1]; exact hI.1
    · rw [h1]
  have hso : 0 ≤ m0.scrollOffset := hI.2
  have keep : ∀ x : model, x.cursor = cur → x.scrollOffset = m0.scrollOffset →
      0 ≤ x.cursor ∧ 0 ≤ x.scrollOffset := by
    intro x h1 h2
    rw [h1, h2]
    exact ⟨hc0, hso⟩
  refine handleMsg_cases (fun x _ => 0 ≤ x.cursor ∧ 0 ≤ x.scrollOffset)
    matcher _ cmds msg ?_ ?_ ?_ ?_ ?_ ?_ ?_ ?_ ?_ ?_ ?_ ?_ ?_ ?_ m1 c hh
  · intro k _ _
    refine updateInputKey_cases (fun x _ => 0 ≤ x.cursor ∧ 0 ≤ x.scrollOffset)
      _ cmds k ?_ ?_ ?_ ?_ ?_ ?_ ?_ ?_
    · intro _; exact keep _ rfl rfl
    · intro _ _; exact ⟨le_refl 0, hso⟩
    · intro _ _ _; exact keep _ rfl rfl
    · intro _ _ _; exact keep _ rfl rfl
    · intro b _ _ _; exact keep _ rfl rfl
    · intro _ _ hpos
      refine adjustScrollOffset_nonneg _ ?_ hso
      show 0 ≤ cur - 1
      have : cur > 0 := hpos
      omega
    · intro _ _ _
      refine adjustScrollOffset_nonneg _ ?_ hso
      show 0 ≤ cur + 1
      omega
    · exact keep _ rfl rfl
  · intro k _ _ _
    refine updateKey_cases (fun x _ => 0 ≤ x.cursor ∧ 0 ≤ x.scrollOffset)
      _ cmds k ?_ ?_ ?_ ?_ ?_ ?_ ?_ ?_ ?_ ?_
    · intro _; exact keep _ rfl rfl
    · intro _ _ _ _; exact keep _ rfl rfl
    · intro _ _ _ _; exact keep _ rfl rfl
    · intro _ hpos
      refine adjustScrollOffset_nonneg _ ?_ hso
      show 0 ≤ cur - 1
      have : cur > 0 := hpos
      omega
    · intro _ _
      refine adjustScrollOffset_nonneg _ ?_ hso
      show 0 ≤ cur + 1
      omega
    · intro _ _ _; exact ⟨le_refl 0, le_refl 0⟩
    · intro _ _ _ _; exact keep _ rfl rfl
    · intro _ _ _ _; exact keep _ rfl rfl
    · intro _ _ _ _ _ _ _; exact keep _ rfl rfl
    · exact keep _ rfl rfl
  · intro _ _; exact keep _ rfl rfl
  · intro _ _ vis cur1 hc1 _ _
    refine ⟨?_, hso⟩
    show 0 ≤ cur1
    rcases hc1 with h1 | h1
    · rw [h1]; exact hc0
    · rw [h1]
  · intro _ _; exact keep _ rfl rfl
  · intro _; exact ⟨le_refl 0, le_refl 0⟩
  · intro _ _ _ _; exact keep _ rfl rfl
  · intro _ _ _; exact keep _ rfl rfl
  · intro _; exact keep _ rfl rfl
  · intro _ _; exact ⟨le_refl 0, le_refl 0⟩
  · intro _ _ _; exact keep _ rfl rfl
  · intro _; exact keep _ rfl rfl
  · intro _ _; exact keep _ rfl rfl
  · intro _; exact keep _ rfl rfl

/-- C7 fails as stated: after the cursor went to the last of three worktrees in
a terminal of 10 rows and the terminal grew to 24 rows, the state is reachable,
the list fits the viewport of 16 rows, and the scroll offset is still 1, above
`max(0, 3 - 16) = 0`. -/
theorem C7_counterexample :
    run typingInput flatMatcher initialModel resizeTrace = some resizedModel ∧
      Reachable typingInput flatMatcher resizedModel ∧
      resizedModel.view = "worktrees" ∧
      (resizedModel.worktrees.length : Int) ≤ resizedModel.viewportHeight ∧
      resizedModel.scrollOffset = 1 ∧
      ¬(0 ≤ resizedModel.scrollOffset ∧
        resizedModel.scrollOffset
          ≤ max 0 ((resizedModel.worktrees.length : Int) - resizedModel.viewportHeight)) :=
  ⟨rfl, reachable_of_run _ _ resizeTrace _ _ Reachable.init rfl, rfl, by decide, rfl,
    by decide⟩

/-- C7, amended: in every reachable state the scroll offset is not negative;
the upper bound is kept not by the stored offset but by the first index
`getViewportRange` derives from it, which lies between 0 and
`max(0, totalItems - viewportHeight)` for every length, and is 0 whenever the
list fits the viewport. -/
theorem C7_scrollOffset_bounds (ti : InputUpdate) (matcher : Matcher)
    (m : model) (h : Reachable ti matcher m) :
    0 ≤ m.scrollOffset ∧
      ∀ totalItems : Int,
        0 ≤ (getViewportRange m totalItems).1 ∧
        (getViewportRange m totalItems).1 ≤ max 0 (totalItems - m.viewportHeight) ∧
        (totalItems ≤ m.viewportHeight → (getViewportRange m totalItems).1 = 0) := by
  have hinv : 0 ≤ m.cursor ∧ 0 ≤ m.scrollOffset := by
    induction h with
    | init => exact ⟨le_refl 0, le_refl 0⟩
    | step msg _ hu ih => exact step_nonneg ti matcher _ _ msg _ hu ih
  refine ⟨hinv.2, fun totalItems => ?_⟩
  have hso := hinv.2
  unfold getViewportRange
  by_cases c1 : totalItems ≤ m.viewportHeight
  · rw [if_pos c1]
    exact ⟨le_refl 0, le_max_left _ _, fun _ => rfl⟩
  · rw [if_neg c1]
    simp only
    by_cases c2 : m.scrollOffset + m.viewportHeight > totalItems
    · rw [if_pos c2]
      by_cases c3 : totalItems - m.viewportHeight < 0
      · rw [if_pos c3]
        exact ⟨le_refl 0, le_max_left _ _, fun _ => rfl⟩
      · rw [if_neg c3]
        exact ⟨by show 0 ≤ totalItems - m.viewportHeight; omega, le_max_right _ _,
          fun h => absurd h c1⟩
    · rw [if_neg c2]
      refine ⟨hso, ?_, fun h => absurd h c1⟩
      show m.scrollOffset ≤ max 0 (totalItems - m.viewportHeight)
      exact le_trans (by omega) (le_max_right _ _)

/-- Witness for C7: in the state reached after the terminal grew, the stored
offset is 1 and the window of the three worktrees starts at 0. -/
theorem C7_scrollOffset_bounds_witness :
    Reachable typingInput flatMatcher resizedModel ∧ (0 : Int) ≤ resizedModel.scrollOffset ∧
      (getViewportRange resizedModel 3).1 = 0 :=
  ⟨reachable_of_run _ _ resizeTrace _ _ Reachable.init rfl,
    (C7_scrollOffset_bounds typingInput flatMatcher resizedModel
      (reachable_of_run _ _ resizeTrace _ _ Reachable.init rfl)).1,
    by decide⟩

/-! ## C8: an operation is started only by a step that marks it pending -/

theorem cmdList_teaBatch (cmds : List Cmd) (d : Cmd) (h : d ∈ cmdList (teaBatch cmds)) :
    d ∈ cmds := by
  unfold teaBatch at h
  split at h
  · simp [cmdList] at h
  · simpa [cmdList] using h

theorem cmdList_finishCmd (cmds : List Cmd) (d : Cmd) (h : d ∈ cmdList (finishCmd cmds)) :
    d ∈ cmds := by
  unfold finishCmd at h
  split at h
  · exact cmdList_teaBatch cmds d h
  · simp [cmdList] at h

theorem pendingMarked_of_harmless (x : model) (c : Option Cmd)
    (h : ∀ d ∈ cmdList c, isOperation d = false) : pendingMarked x c := by
  refine ⟨fun b hb => ?_, fun w hw => ?_, fun n hn => ?_⟩
  · have := h _ hb; simp [isOperation] at this
  · have := h _ hw; simp [isOperation] at this
  · have := h _ hn; simp [isOperation] at this

theorem pendingMarked_of_subset (x : model) (c : Option Cmd) (cmds : List Cmd)
    (hsub : ∀ d ∈ cmdList c, d ∈ cmds) (h : ∀ d ∈ cmds, isOperation d = false) :
    pendingMarked x c :=
  pendingMarked_of_harmless x c (fun d hd => h d (hsub d hd))

theorem step_pendingMarked (ti : InputUpdate) (matcher : Matcher)
    (m0 m1 : model) (msg : Msg) (c : Option Cmd)
    (h : Update ti matcher m0 msg = some (m1, c)) : pendingMarked m1 c := by
  obtain ⟨fi, nbi, bs, cur, cmds, hh, -, -, -, -, -, -, hcmds⟩ :=
    Update_some ti matcher m0 m1 msg c h
  have hin : ∀ d ∈ cmds, isOperation d = false := by
    intro d hd; rw [hcmds d hd]; rfl
  have hin2 : ∀ d ∈ cmds ++ [Cmd.blink], isOperation d = false := by
    intro d hd
    rcases List.mem_append.mp hd with h1 | h1
    · exact hin d h1
    · rw [List.mem_singleton.mp h1]; rfl
  have hfin : ∀ x : model, pendingMarked x (finishCmd cmds) := fun x =>
    pendingMarked_of_subset x _ cmds (cmdList_finishCmd cmds) hin
  have hbat : ∀ x : model, pendingMarked x (teaBatch cmds) := fun x =>
    pendingMarked_of_subset x _ cmds (cmdList_teaBatch cmds) hin
  have hfin2 : ∀ x : model, pendingMarked x (finishCmd (cmds ++ [Cmd.blink])) := fun x =>
    pendingMarked_of_subset x _ _ (cmdList_finishCmd _) hin2
  have hrefresh : ∀ x : model,
      pendingMarked x (teaBatch [Cmd.getWorktreesCmd, Cmd.clearStatusAfterDelay]) := fun x =>
    pendingMarked_of_subset x _ _ (cmdList_teaBatch _) (by
      intro d hd
      simp only [List.mem_cons, List.mem_singleton, List.not_mem_nil, or_false] at hd
      rcases hd with h1 | h1 <;> rw [h1] <;> rfl)
  have hone : ∀ (x : model) (d : Cmd), isOperation d = false → cmdList (some d) = [d] →
      pendingMarked x (some d) := by
    intro x d hd hl
    refine pendingMarked_of_harmless x _ ?_
    intro e he
    rw [hl] at he
    rw [List.mem_singleton.mp he]
    exact hd
  have hcreate : ∀ (x : model) (b : Branch), x.creatingWorktree = true →
      x.creatingForBranch = b.Name → pendingMarked x (some (Cmd.createWorktreeCmd b)) := by
    intro x b h1 h2
    refine ⟨fun b1 hb => ?_, fun w hw => ?_, fun n hn => ?_⟩
    · simp [cmdList] at hb; rw [hb]; exact ⟨h1, h2⟩
    · simp [cmdList] at hw
    · simp [cmdList] at hn
  refine handleMsg_cases pendingMarked matcher _ cmds msg
    ?_ ?_ ?_ ?_ ?_ ?_ ?_ ?_ ?_ ?_ ?_ ?_ ?_ ?_ m1 c hh
  · intro k _ _
    refine updateInputKey_cases pendingMarked _ cmds k ?_ ?_ ?_ ?_ ?_ ?_ ?_ ?_
    · intro _; exact hone _ _ rfl rfl
    · intro _ _; exact hbat _
    · intro _ _ _; exact hbat _
    · intro _ _ _; exact hone _ _ rfl rfl
    · intro b _ _ _; exact hcreate _ b rfl rfl
    · intro _ _ _; exact hbat _
    · intro _ _ _; exact hbat _
    · exact hbat _
  · intro k _ _ _
    refine updateKey_cases pendingMarked _ cmds k ?_ ?_ ?_ ?_ ?_ ?_ ?_ ?_ ?_ ?_
    · intro _; exact hone _ _ rfl rfl
    · intro _ _ _ _; exact hone _ _ rfl rfl
    · intro b _ _ _; exact hcreate _ b rfl rfl
    · intro _ _; exact hfin _
    · intro _ _; exact hfin _
    · intro _ _ _; exact hfin _
    · intro _ _ _ _; exact hfin2 _
    · intro _ _ _ _; exact hfin2 _
    · intro _ _ _ _ _ _ _; exact hone _ _ rfl rfl
    · exact hfin _
  · intro _ _; exact hfin _
  · intro _ _ _ _ _ _ _; exact hfin _
  · intro n _
    refine ⟨fun b1 hb => ?_, fun w hw => ?_, fun n1 hn => ?_⟩
    · simp [cmdList] at hb
    · simp [cmdList] at hw
    · simp [cmdList] at hn; rw [hn]; exact ⟨rfl, rfl⟩
  · intro _; exact hrefresh _
  · intro path _ w hfind
    have hp : w.Path = path := by
      have := List.find?_some hfind
      simpa using this
    refine ⟨fun b1 hb => ?_, fun w1 hw => ?_, fun n1 hn => ?_⟩
    · simp [cmdList] at hb
    · simp [cmdList] at hw; rw [hw]; exact ⟨rfl, hp.symm⟩
    · simp [cmdList] at hn
  · intro _ _ _; exact pendingMarked_of_harmless _ _ (by simp [cmdList])
  · intro _; exact hone _ _ rfl rfl
  · intro _ _; exact hrefresh _
  · intro _ _ _; exact hfin _
  · intro _; exact hfin _
  · intro _ _; exact hone _ _ rfl rfl
  · intro _; exact hfin _

/-- C8: whenever `Update` returns a command that performs a long-running
operation (alone or in a batch), the state returned by the same step has the
flag of that operation set and its target recorded: `creatingWorktree` and
`creatingForBranch` for `createWorktreeCmd`, `deletingWorktree` and
`deletingPath` for `performDeleteWorktreeCmd`, `creatingNewBranch` and
`creatingNewBranchName` for `performCreateNewBranchWorktreeCmd`. -/
theorem C8_operation_marked_pending (ti : InputUpdate) (matcher : Matcher)
    (m m1 : model) (msg : Msg) (c : Option Cmd)
    (h : Update ti matcher m msg = some (m1, c)) :
    (∀ b, Cmd.createWorktreeCmd b ∈ cmdList c →
      m1.creatingWorktree = true ∧ m1.creatingForBranch = b.Name) ∧
    (∀ w, Cmd.performDeleteWorktreeCmd w ∈ cmdList c →
      m1.deletingWorktree = true ∧ m1.deletingPath = w.Path) ∧
    (∀ n, Cmd.performCreateNewBranchWorktreeCmd n ∈ cmdList c →
      m1.creatingNewBranch = true ∧ m1.creatingNewBranchName = n) :=
  step_pendingMarked ti matcher m m1 msg c h

/-- Witness for C8: enter on the branch `main`, the start of the deletion of
`/r`, and the start of the creation of the branch `topic`. -/
theorem C8_operation_marked_pending_witness :
    (Update typingInput flatMatcher branchListModel (Msg.key "enter")
        = some (branchChosenModel, some (Cmd.createWorktreeCmd brMain)) ∧
      branchChosenModel.creatingWorktree = true ∧
      branchChosenModel.creatingForBranch = brMain.Name) ∧
    (Update typingInput flatMatcher oneWorktreeModel (Msg.deletingWorktreeMsg "/r")
        = some ({ oneWorktreeModel with deletingWorktree := true, deletingPath := "/r" },
            some (Cmd.performDeleteWorktreeCmd wtMain)) ∧
      ({ oneWorktreeModel with deletingWorktree := true, deletingPath := "/r" } : model).deletingPath
        = wtMain.Path) ∧
    (Update typingInput flatMatcher initialModel (Msg.newBranchCreatingMsg "topic")
        = some ({ initialModel with
                    creatingNewBranch := true, creatingNewBranchName := "topic",
                    statusMessage := "Creating new branch 'topic' and worktree..." },
            some (Cmd.performCreateNewBranchWorktreeCmd "topic")) ∧
      ({ initialModel with
            creatingNewBranch := true, creatingNewBranchName := "topic",
            statusMessage := "Creating new branch 'topic' and worktree..." } : model
        ).creatingNewBranchName = "topic") :=
  ⟨⟨rfl, (C8_operation_marked_pending typingInput flatMatcher branchListModel _
      (Msg.key "enter") _ rfl).1 brMain (List.Mem.head _)⟩,
   ⟨rfl, ((C8_operation_marked_pending typingInput flatMatcher oneWorktreeModel _
      (Msg.deletingWorktreeMsg "/r") _ rfl).2.1 wtMain (List.Mem.head _)).2⟩,
   ⟨rfl, ((C8_operation_marked_pending typingInput flatMatcher initialModel _
      (Msg.newBranchCreatingMsg "topic") _ rfl).2.2 "topic" (List.Mem.head _)).2⟩⟩

/-! ## C9: what the filter shows -/

/-- C9: for a non-empty filter text, `filterBranches` succeeds, leaves
`allBranches` alone, and the list `branches` consists of exactly the branches
of `allBranches` whose name contains the characters of the text in order, as a
subsequence not necessarily contiguous, compared case-insensitively: two
characters count as equal when the case folding of the matcher gives them the
same fold. This holds for every case folding and every measure of quality. -/
theorem C9_filterBranches_exact (matcher : Matcher) (m : model)
    (h : m.filterInput.Value ≠ "") :
    ∃ m1 : model, filterBranches matcher m = some m1 ∧ m1.allBranches = m.allBranches ∧
      m1.branches.Perm
        (m.allBranches.filter (fun b =>
          decide ((m.filterInput.Value.toList.map matcher.fold).Sublist
            (b.Name.toList.map matcher.fold)))) := by
  obtain ⟨bs, cur, heq, -, -, hne⟩ := filterBranches_some matcher m
  refine ⟨_, heq, rfl, ?_⟩
  show bs.Perm _
  rw [(hne h).1]
  have hp := filteredBranches_perm matcher m.filterInput.Value m.allBranches h
  have hf : (m.allBranches.filter (fun b =>
      isSubseqFold matcher.fold m.filterInput.Value.toList b.Name.toList)) =
      m.allBranches.filter (fun b =>
          decide ((m.filterInput.Value.toList.map matcher.fold).Sublist
            (b.Name.toList.map matcher.fold))) := by
    apply List.filter_congr
    intro b _
    by_cases hb : isSubseqFold matcher.fold m.filterInput.Value.toList b.Name.toList = true
    · rw [hb]; exact (decide_eq_true ((isSubseqFold_iff matcher.fold _ _).mp hb)).symm
    · have hb2 : isSubseqFold matcher.fold m.filterInput.Value.toList b.Name.toList = false := by
        simpa using hb
      rw [hb2]
      exact (decide_eq_false (fun hs => hb ((isSubseqFold_iff matcher.fold _ _).mpr hs))).symm
  rw [← hf]
  exact hp

/-- Witness for C9: among main, feature-branch, bugfix-branch and release-v1.0
the texts `feature` and `FEATURE` each leave exactly feature-branch; and with a
case folding that knows the accented letters, the text `É` keeps the branch
été of été and main. -/
theorem C9_filterBranches_exact_witness :
    (queryModel "feature").filterInput.Value ≠ "" ∧
      (filterBranches accentMatcher accentQueryModel).map (fun m => m.branches)
        = some [{ Name := "été", Type_ := "local", LastCommit := "" }] ∧
      (filterBranches flatMatcher (queryModel "feature")).map (fun m => m.branches)
        = some [{ Name := "feature-branch", Type_ := "local", LastCommit := "" }] ∧
      (filterBranches flatMatcher (queryModel "FEATURE")).map (fun m => m.branches)
        = some [{ Name := "feature-branch", Type_ := "local", LastCommit := "" }] ∧
      ∃ m1 : model, filterBranches flatMatcher (queryModel "feature") = some m1 ∧
        m1.allBranches = (queryModel "feature").allBranches ∧
        m1.branches.Perm
          ((queryModel "feature").allBranches.filter (fun b =>
            decide (((queryModel "feature").filterInput.Value.toList.map flatMatcher.fold).Sublist
              (b.Name.toList.map flatMatcher.fold)))) :=
  ⟨by decide, rfl, rfl, rfl,
    C9_filterBranches_exact flatMatcher (queryModel "feature") (by decide)⟩

/-! ## C10: esc in filter mode -/

/-- C10: in filter mode, whatever the branches, the text typed so far and the
cursor, pressing esc returns a state with `filtering` false, an empty filter
buffer, the cursor at 0 and `branches` equal to `allBranches`, which is
unchanged. -/
theorem C10_esc_restores_branches (ti : InputUpdate) (matcher : Matcher)
    (m : model) (hf : m.filtering = true) :
    ∃ (m1 : model) (c : Option Cmd),
      Update ti matcher m (Msg.key "esc") = some (m1, c) ∧
      m1.filtering = false ∧ m1.filterInput.Value = "" ∧ m1.cursor = 0 ∧
      m1.branches = m.allBranches ∧ m1.allBranches = m.allBranches := by
  obtain ⟨fi, nbi, bs, cur, cmds, hu, -⟩ := updateInputs_some ti matcher m (Msg.key "esc")
  unfold Update
  rw [hu]
  unfold handleMsg
  simp only
  have hfil : ∀ x : model, x.filtering = m.filtering → x.filtering = true :=
    fun x hx => hx.trans hf
  rw [if_pos (Or.inl (hfil _ rfl))]
  unfold updateInputKey
  rw [if_neg (by decide), if_pos rfl, if_pos (hfil _ rfl)]
  exact ⟨_, _, rfl, rfl, rfl, rfl, rfl, rfl⟩

/-- Witness for C10: with `f` typed and only `feature` shown, esc brings back
both branches. -/
theorem C10_esc_restores_branches_witness :
    run typingInput flatMatcher initialModel
        [Msg.branchesMsg [brMain, brFeature], Msg.key "tab", Msg.key "/", Msg.key "f"]
      = some filteringModel ∧
    filteringModel.filtering = true ∧ filteringModel.branches = [brFeature] ∧
    (run typingInput flatMatcher filteringModel [Msg.key "esc"]).map (fun m => m.branches)
      = some [brMain, brFeature] ∧
    ∃ (m1 : model) (c : Option Cmd),
      Update typingInput flatMatcher filteringModel (Msg.key "esc") = some (m1, c) ∧
      m1.filtering = false ∧ m1.filterInput.Value = "" ∧ m1.cursor = 0 ∧
      m1.branches = filteringModel.allBranches ∧
      m1.allBranches = filteringModel.allBranches :=
  ⟨rfl, rfl, rfl, rfl, C10_esc_restores_branches typingInput flatMatcher filteringModel rfl⟩

/-! ## C11: parsing the porcelain listing -/

theorem splitChars_line (sep : Char) : ∀ (l rest : List Char), sep ∉ l →
    splitChars sep (l ++ sep :: rest) = l :: splitChars sep rest
  | [], rest, _ => by simp [splitChars]
  | c :: l, rest, h => by
    have hc : c ≠ sep := fun e => h (e ▸ List.mem_cons_self _ _)
    have hl : sep ∉ l := fun e => h (List.mem_cons_of_mem _ e)
    have ih := splitChars_line sep l rest hl
    rw [List.cons_append, splitChars, if_neg hc, ih]

theorem split_line (s t : String) (h : '\n' ∉ s.data) :
    strings.Split (s ++ "\n" ++ t) '\n' = s :: strings.Split t '\n' := by
  unfold strings.Split
  have hd : (s ++ "\n" ++ t).data = s.data ++ '\n' :: t.data := by
    simp [String.data_append]
  rw [hd, splitChars_line '\n' s.data t.data h]
  rfl

theorem hasPrefix_append (pre s : String) : strings.HasPrefix (pre ++ s) pre = true := by
  unfold strings.HasPrefix
  rw [String.data_append]
  exact List.isPrefixOf_iff_prefix.mpr (List.prefix_append _ _)

theorem trimPrefix_append (pre s : String) : strings.TrimPrefix (pre ++ s) pre = s := by
  unfold strings.TrimPrefix
  rw [if_pos (hasPrefix_append pre s), String.data_append, List.drop_left]

theorem parseLine_worktree (st : ParseState) (p : String) :
    parseLine st ("worktree " ++ p) =
      (if st.2.Path ≠ "" then st.1 ++ [st.2] else st.1,
        { Path := p, Branch := "", Head := "" }) := by
  unfold parseLine
  rw [if_pos (hasPrefix_append _ _), trimPrefix_append]

theorem parseLine_head (st : ParseState) (h : String) :
    parseLine st ("HEAD " ++ h) = (st.1, { st.2 with Head := h }) := by
  have h1 : strings.HasPrefix ("HEAD " ++ h) "worktree " = false := by
    simp [strings.HasPrefix, String.data_append, List.isPrefixOf]
  have h2 : strings.HasPrefix ("HEAD " ++ h) "branch " = false := by
    simp [strings.HasPrefix, String.data_append, List.isPrefixOf]
  unfold parseLine
  rw [h1, h2, if_pos (hasPrefix_append _ _), trimPrefix_append]
  simp

theorem parseLine_branch (st : ParseState) (b : String) :
    parseLine st ("branch refs/heads/" ++ b) = (st.1, { st.2 with Branch := b }) := by
  have h1 : strings.HasPrefix ("branch refs/heads/" ++ b) "worktree " = false := by
    simp [strings.HasPrefix, String.data_append, List.isPrefixOf]
  have h2 : strings.HasPrefix ("branch refs/heads/" ++ b) "branch " = true := by
    simp [strings.HasPrefix, String.data_append, List.isPrefixOf]
  unfold parseLine
  rw [h1, h2, trimPrefix_append]
  simp

theorem parseLine_empty (st : ParseState) : parseLine st "" = st := by
  unfold parseLine
  simp [strings.HasPrefix, List.isPrefixOf]

theorem split_line2 (pre p t : String) (h1 : '\n' ∉ pre.data) (h2 : '\n' ∉ p.data) :
    strings.Split (pre ++ (p ++ ("\n" ++ t))) '\n' = (pre ++ p) :: strings.Split t '\n' := by
  have h := split_line (pre ++ p) t (by
    rw [String.data_append, List.mem_append]
    exact fun e => e.elim h1 h2)
  rw [← h]
  simp only [String.append_assoc]

theorem foldl_record (r : WorktreeRecord) (t : String) (st : ParseState)
    (hp : '\n' ∉ r.path.data) (hh : '\n' ∉ r.head.data)
    (hb : ∀ b, r.branch = some b → '\n' ∉ b.data) :
    (strings.Split (recordText r ++ t) '\n').foldl parseLine st =
      (strings.Split t '\n').foldl parseLine
        (if st.2.Path ≠ "" then st.1 ++ [st.2] else st.1, recordWorktree r) := by
  unfold recordText recordWorktree
  cases hbr : r.branch with
  | none =>
    simp only [String.append_assoc, String.empty_append, Option.getD_none]
    rw [split_line2 _ _ _ (by decide) hp, List.foldl_cons, parseLine_worktree,
      split_line2 _ _ _ (by decide) hh, List.foldl_cons, parseLine_head]
  | some b =>
    simp only [String.append_assoc, Option.getD_some]
    rw [split_line2 _ _ _ (by decide) hp, List.foldl_cons, parseLine_worktree,
      split_line2 _ _ _ (by decide) hh, List.foldl_cons, parseLine_head,
      split_line2 _ _ _ (by decide) (hb b hbr), List.foldl_cons, parseLine_branch]

theorem parse_records : ∀ (rs : List WorktreeRecord) (st : ParseState),
    (∀ r ∈ rs, r.path ≠ "" ∧ '\n' ∉ r.path.data ∧ '\n' ∉ r.head.data ∧
      ∀ b, r.branch = some b → '\n' ∉ b.data) →
    flushWorktree ((strings.Split (porcelainText rs) '\n').foldl parseLine st) =
      flushWorktree st ++ rs.map recordWorktree
  | [], st, _ => by
    have hs : strings.Split "" '\n' = [""] := rfl
    simp [porcelainText, hs, parseLine_empty]
  | r :: rs, st, h => by
    obtain ⟨hne, hp, hh, hb⟩ := h r (List.mem_cons_self _ _)
    have ih := parse_records rs
      (if st.2.Path ≠ "" then st.1 ++ [st.2] else st.1, recordWorktree r)
      (fun x hx => h x (List.mem_cons_of_mem _ hx))
    unfold porcelainText
    rw [foldl_record r _ st hp hh hb, ih]
    have hpath : (recordWorktree r).Path ≠ "" := hne
    simp only [flushWorktree, if_pos hpath, List.map_cons, List.append_assoc,
      List.singleton_append]

/-- C11 fails as stated: a record whose branch name holds a line break is
written as two lines, and the parsing loop returns the branch cut at the line
break. -/
theorem C11_counterexample :
    brokenBranchRecord.path ≠ "" ∧ '\n' ∉ brokenBranchRecord.path.data ∧
      brokenBranchRecord.head ≠ "" ∧ '\n' ∉ brokenBranchRecord.head.data ∧
      parseWorktrees (porcelainText [brokenBranchRecord])
        = [{ Path := "/r", Branch := "a", Head := "abc" }] ∧
      parseWorktrees (porcelainText [brokenBranchRecord])
        ≠ [recordWorktree brokenBranchRecord] := by
  decide

/-- C11, amended: for every list of worktree records whose path and head are
non-empty and free of line breaks and whose branch, when there is one, is free
of line breaks, the parsing loop of `getWorktrees` applied to the text made
of, per record, the lines `worktree <path>`, `HEAD <head>` and (with a branch)
`branch refs/heads/<branch>` returns exactly those records in the same order,
with an empty `Branch` for a record without a branch line. -/
theorem C11_parse_round_trip (rs : List WorktreeRecord)
    (h : ∀ r ∈ rs, r.path ≠ "" ∧ '\n' ∉ r.path.data ∧ r.head ≠ "" ∧ '\n' ∉ r.head.data ∧
      ∀ b, r.branch = some b → '\n' ∉ b.data) :
    parseWorktrees (porcelainText rs) = rs.map recordWorktree ∧
      getWorktrees (Except.ok (porcelainText rs)) = Except.ok (rs.map recordWorktree) := by
  have hp : parseWorktrees (porcelainText rs) = rs.map recordWorktree := by
    unfold parseWorktrees
    rw [parse_records rs _ (fun r hr => ⟨(h r hr).1, (h r hr).2.1, (h r hr).2.2.2.1,
      (h r hr).2.2.2.2⟩)]
    rfl
  exact ⟨hp, congrArg Except.ok hp⟩

/-- Witness for C11: the listing of a worktree on `main` and of a worktree
with a detached head, and the listing of the specification's scenario. -/
theorem C11_parse_round_trip_witness :
    parseWorktrees "worktree /r\nHEAD abc\nbranch refs/heads/main\n"
        = [{ Path := "/r", Branch := "main", Head := "abc" }] ∧
      porcelainText twoRecords
        = "worktree /r\nHEAD abc\nbranch refs/heads/main\nworktree /r-old\nHEAD def\n" ∧
      parseWorktrees (porcelainText twoRecords)
        = [{ Path := "/r", Branch := "main", Head := "abc" },
           { Path := "/r-old", Branch := "", Head := "def" }] :=
  ⟨by decide, by decide,
    (C11_parse_round_trip twoRecords (by
      intro r hr
      simp only [twoRecords, List.mem_cons, List.mem_singleton, List.not_mem_nil,
        or_false] at hr
      rcases hr with rfl | rfl <;>
        exact ⟨by decide, by decide, by decide, by decide,
          fun b hb => by cases hb <;> decide⟩)).1⟩

/-! ## C12, C13: the order of the branches -/

theorem charsLess_iff : ∀ (a b : List Char), charsLess a b = true ↔ List.Lex (· < ·) a b
  | [], [] => by
    simp only [charsLess]
    exact ⟨fun h => (by cases h), fun h => (by cases h)⟩
  | _ :: _, [] => by
    simp only [charsLess]
    exact ⟨fun h => (by cases h), fun h => (by cases h)⟩
  | [], _ :: _ => by
    simp only [charsLess]
    exact ⟨fun _ => List.Lex.nil, fun _ => trivial⟩
  | a :: as, b :: bs => by
    simp only [charsLess]
    by_cases hab : a = b
    · subst hab
      rw [if_pos rfl, charsLess_iff as bs]
      exact List.Lex.cons_iff.symm
    · rw [if_neg hab]
      constructor
      · intro h
        exact List.Lex.rel (by simpa using h)
      · intro h
        cases h with
        | cons _ => exact absurd rfl hab
        | rel h1 => simpa using h1

theorem stringLess_iff (a b : String) : stringLess a b = true ↔ a < b := by
  unfold stringLess
  rw [charsLess_iff]
  exact String.lt_iff_toList_lt.symm

theorem stringLess_false_iff (a b : String) : stringLess a b = false ↔ b ≤ a := by
  rw [← not_lt, ← stringLess_iff]
  simp

theorem sorted_orderedInsert_on {α : Type} (r : α → α → Prop) [DecidableRel r]
    (S : α → Prop) (htot : ∀ a b, S a → S b → r a b ∨ r b a)
    (htr : ∀ a b c, S a → S b → S c → r a b → r b c → r a c) (a : α) (ha : S a) :
    ∀ l : List α, (∀ x ∈ l, S x) → l.Sorted r → (l.orderedInsert r a).Sorted r
  | [], _, _ => List.sorted_singleton a
  | b :: l, hS, hs => by
    have hb : S b := hS b (List.mem_cons_self _ _)
    have hl : ∀ x ∈ l, S x := fun x hx => hS x (List.mem_cons_of_mem _ hx)
    have hs' := List.sorted_cons.mp hs
    rw [List.orderedInsert]
    split_ifs with hab
    · refine List.sorted_cons.mpr ⟨?_, hs⟩
      intro x hx
      rcases List.mem_cons.mp hx with rfl | hx
      · exact hab
      · exact htr a b x ha hb (hl x hx) hab (hs'.1 x hx)
    · refine List.sorted_cons.mpr ⟨?_, sorted_orderedInsert_on r S htot htr a ha l hl hs'.2⟩
      intro x hx
      rcases (List.mem_orderedInsert r).mp hx with rfl | hx
      · exact (htot x b ha hb).resolve_left hab
      · exact hs'.1 x hx

theorem sorted_insertionSort_on {α : Type} (r : α → α → Prop) [DecidableRel r]
    (S : α → Prop) (htot : ∀ a b, S a → S b → r a b ∨ r b a)
    (htr : ∀ a b c, S a → S b → S c → r a b → r b c → r a c) :
    ∀ l : List α, (∀ x ∈ l, S x) → (l.insertionSort r).Sorted r
  | [], _ => List.sorted_nil
  | a :: l, hS => by
    have hl : ∀ x ∈ l, S x := fun x hx => hS x (List.mem_cons_of_mem _ hx)
    rw [List.insertionSort]
    refine sorted_orderedInsert_on r S htot htr a (hS a (List.mem_cons_self _ _)) _ ?_
      (sorted_insertionSort_on r S htot htr l hl)
    intro x hx
    exact hl x ((List.perm_insertionSort r l).mem_iff.mp hx)

theorem branchLess_false_iff (a b : Branch)
    (ha : a.Type_ = "local" ∨ a.Type_ = "remote")
    (hb : b.Type_ = "local" ∨ b.Type_ = "remote") :
    branchLess b a = false ↔
      (a.Type_ = "local" ∧ b.Type_ = "remote") ∨
        (a.Type_ = b.Type_ ∧ b.LastCommit ≤ a.LastCommit) := by
  unfold branchLess
  rcases ha with ha | ha <;> rcases hb with hb | hb <;>
    simp [ha, hb, stringLess_false_iff]

/-- The order `sort.Slice` establishes with `branchLess` on branches of the two
kinds. -/
theorem sortSlice_branchLess_sorted (l : List Branch)
    (hS : ∀ b ∈ l, b.Type_ = "local" ∨ b.Type_ = "remote") :
    (sortSlice branchLess l).Pairwise (fun a b =>
      (a.Type_ = "local" ∧ b.Type_ = "remote") ∨
        (a.Type_ = b.Type_ ∧ b.LastCommit ≤ a.LastCommit)) := by
  have hs : (sortSlice branchLess l).Sorted (fun a b => branchLess b a = false) := by
    unfold sortSlice
    refine sorted_insertionSort_on _ (fun b => b.Type_ = "local" ∨ b.Type_ = "remote")
      ?_ ?_ l hS
    · intro a b ha hb
      rw [branchLess_false_iff a b ha hb, branchLess_false_iff b a hb ha]
      rcases ha with ha | ha <;> rcases hb with hb | hb <;>
        simp [ha, hb, le_total]
    · intro a b c ha hb hc
      rw [branchLess_false_iff a b ha hb, branchLess_false_iff b c hb hc,
        branchLess_false_iff a c ha hc]
      rcases ha with ha | ha <;> rcases hb with hb | hb <;> rcases hc with hc | hc <;>
        simp [ha, hb, hc] <;> exact fun h1 h2 => le_trans h2 h1
  have hmem : ∀ x ∈ sortSlice branchLess l, x.Type_ = "local" ∨ x.Type_ = "remote" :=
    fun x hx => hS x ((List.perm_insertionSort _ l).mem_iff.mp hx)
  exact List.Pairwise.imp_of_mem
    (fun {a b} ha hb h => (branchLess_false_iff a b (hmem a ha) (hmem b hb)).mp h) hs

/-- C12: for local branches (kind "local") and remote branches (kind
"remote"), the list `getBranches` returns is a permutation of their
concatenation in which no remote branch comes before a local one and, among
branches of the same kind, `LastCommit` never increases from first to last. -/
theorem C12_getBranches_sorted (localBranches remoteBranches : List Branch)
    (hl : ∀ b ∈ localBranches, b.Type_ = "local")
    (hr : ∀ b ∈ remoteBranches, b.Type_ = "remote") :
    getBranches (Except.ok localBranches) (Except.ok remoteBranches)
        = Except.ok (sortBranches localBranches remoteBranches) ∧
      (sortBranches localBranches remoteBranches).Perm (localBranches ++ remoteBranches) ∧
      (sortBranches localBranches remoteBranches).Pairwise
        (fun a b => ¬(a.Type_ = "remote" ∧ b.Type_ = "local")) ∧
      (sortBranches localBranches remoteBranches).Pairwise
        (fun a b => a.Type_ = b.Type_ → b.LastCommit ≤ a.LastCommit) := by
  have hS : ∀ b ∈ localBranches ++ remoteBranches, b.Type_ = "local" ∨ b.Type_ = "remote" := by
    intro b hb
    rcases List.mem_append.mp hb with h | h
    · exact Or.inl (hl b h)
    · exact Or.inr (hr b h)
  have hs := sortSlice_branchLess_sorted (localBranches ++ remoteBranches) hS
  refine ⟨rfl, List.perm_insertionSort _ _, ?_, ?_⟩
  · refine List.Pairwise.imp ?_ hs
    intro a b h hab
    rcases h with h | h
    · rw [h.1] at hab; exact absurd hab.1 (by decide)
    · rw [h.1, hab.2] at hab; exact absurd hab.1 (by decide)
  · refine List.Pairwise.imp ?_ hs
    intro a b h hab
    rcases h with h | h
    · rw [h.1, h.2] at hab; exact absurd hab (by decide)
    · exact h.2

/-- Witness for C12: two local and two remote branches, each pair listed
oldest first, come out newest first with the local ones in front. -/
theorem C12_getBranches_sorted_witness :
    (∀ b ∈ someLocalBranches, b.Type_ = "local") ∧
      (∀ b ∈ someRemoteBranches, b.Type_ = "remote") ∧
      (sortBranches someLocalBranches someRemoteBranches).map (fun b => b.Name)
        = ["new", "old", "origin/new", "origin/old"] ∧
      (sortBranches someLocalBranches someRemoteBranches).Perm
        (someLocalBranches ++ someRemoteBranches) :=
  ⟨by decide, by decide, by decide,
    (C12_getBranches_sorted someLocalBranches someRemoteBranches (by decide) (by decide)).2.1⟩

/-- C13 (the code orders by the wall clock): of two local branches, `fresh`
committed at 10:00 in the zone +0000 and `stale` committed at 11:00 in the zone
+0500, the first is the later instant by four hours; the texts kept as
`LastCommit` drop the zone, the text of `fresh` is the smaller one, and
`getBranches` puts `stale` first. -/
theorem C13_zone_dropped_from_sort_key :
    (timeParse "2024-01-01 10:00:00 +0000").map unixSeconds = some 1704103200 ∧
      (timeParse "2024-01-01 11:00:00 +0500").map unixSeconds = some 1704088800 ∧
      getLocalBranches (Except.ok zonesOutput)
        = Except.ok [{ Name := "fresh", Type_ := "local", LastCommit := "2024-01-01 10:00:00" },
                     { Name := "stale", Type_ := "local", LastCommit := "2024-01-01 11:00:00" }] ∧
      stringLess "2024-01-01 10:00:00" "2024-01-01 11:00:00" = true ∧
      getBranches (getLocalBranches (Except.ok zonesOutput)) (getRemoteBranches (Except.ok ""))
        = Except.ok [{ Name := "stale", Type_ := "local", LastCommit := "2024-01-01 11:00:00" },
                     { Name := "fresh", Type_ := "local", LastCommit := "2024-01-01 10:00:00" }] :=
  ⟨by decide, by decide, rfl, by decide, rfl⟩

/-! ## C14: the fallback chain of the default branch -/

/-- C14 fails as stated: when the two verifications fail and the lookup of the
symbolic ref succeeds with `refs/heads/main`, which does not start with
`refs/remotes/`, the function returns an error and not the ref. -/
theorem C14_counterexample :
    failed (localHeadExec Check.verifyMain) ∧ failed (localHeadExec Check.verifyMaster) ∧
      localHeadExec Check.symbolicRef = Except.ok "refs/heads/main\n" ∧
      strings.TrimPrefix (strings.TrimSpace "refs/heads/main\n") "refs/remotes/"
        = "refs/heads/main" ∧
      (getOriginMainBranch localHeadExec).1
        = Except.error "could not parse origin main branch reference" ∧
      (getOriginMainBranch localHeadExec).1 ≠ Except.ok "refs/heads/main" := by
  refine ⟨trivial, trivial, rfl, by decide, rfl, ?_⟩
  intro h
  cases h

/-- C14, amended: `getOriginMainBranch` returns `origin/main` when verifying
`origin/main` succeeds, running no other command; otherwise `origin/master`
when verifying `origin/master` succeeds, without the lookup of the symbolic
ref; otherwise, when the lookup succeeds and its output, white space trimmed,
starts with `refs/remotes/`, that output without `refs/remotes/`; and an
error when the lookup succeeds with any other output or when all three
commands fail. -/
theorem C14_fallback_chain (exec : Check → Except String String) :
    (¬ failed (exec Check.verifyMain) →
      getOriginMainBranch exec = (Except.ok "origin/main", [Check.verifyMain])) ∧
    (failed (exec Check.verifyMain) → ¬ failed (exec Check.verifyMaster) →
      getOriginMainBranch exec
        = (Except.ok "origin/master", [Check.verifyMain, Check.verifyMaster])) ∧
    (failed (exec Check.verifyMain) → failed (exec Check.verifyMaster) →
      ∀ output, exec Check.symbolicRef = Except.ok output →
        strings.HasPrefix (strings.TrimSpace output) "refs/remotes/" = true →
        getOriginMainBranch exec
          = (Except.ok (strings.TrimPrefix (strings.TrimSpace output) "refs/remotes/"),
              [Check.verifyMain, Check.verifyMaster, Check.symbolicRef])) ∧
    (failed (exec Check.verifyMain) → failed (exec Check.verifyMaster) →
      ∀ output, exec Check.symbolicRef = Except.ok output →
        strings.HasPrefix (strings.TrimSpace output) "refs/remotes/" = false →
        ∃ err, (getOriginMainBranch exec).1 = Except.error err) ∧
    (failed (exec Check.verifyMain) → failed (exec Check.verifyMaster) →
      failed (exec Check.symbolicRef) →
      ∃ err, (getOriginMainBranch exec).1 = Except.error err) := by
  unfold getOriginMainBranch
  cases h1 : exec Check.verifyMain with
  | ok o1 => simp [failed]
  | error e1 =>
    cases h2 : exec Check.verifyMaster with
    | ok o2 => simp [failed]
    | error e2 =>
      cases h3 : exec Check.symbolicRef with
      | error e3 => simp [failed]
      | ok o3 =>
        by_cases hp : strings.HasPrefix (strings.TrimSpace o3) "refs/remotes/" = true
        · simp [failed, hp]
        · simp [failed, hp]

/-- Witness for C14: a remote with `main`; a remote with `master` only; a
remote whose `origin/HEAD` points to `trunk`; and a repository where all three
commands fail. -/
theorem C14_fallback_chain_witness :
    getOriginMainBranch mainExec = (Except.ok "origin/main", [Check.verifyMain]) ∧
      getOriginMainBranch masterExec
        = (Except.ok "origin/master", [Check.verifyMain, Check.verifyMaster]) ∧
      getOriginMainBranch trunkExec
        = (Except.ok (strings.TrimPrefix (strings.TrimSpace "refs/remotes/origin/trunk\n")
              "refs/remotes/"),
            [Check.verifyMain, Check.verifyMaster, Check.symbolicRef]) ∧
      strings.TrimPrefix (strings.TrimSpace "refs/remotes/origin/trunk\n") "refs/remotes/"
        = "origin/trunk" ∧
      (∃ err, (getOriginMainBranch noRemoteExec).1 = Except.error err) :=
  ⟨(C14_fallback_chain mainExec).1 (fun h => h),
    (C14_fallback_chain masterExec).2.1 trivial (fun h => h),
    (C14_fallback_chain trunkExec).2.2.1 trivial trivial _ rfl (by decide),
    by decide,
    (C14_fallback_chain noRemoteExec).2.2.2.2 trivial trivial trivial⟩

/-! ## C15: a listing that fails -/

theorem updateInputs_list_mode (ti : InputUpdate) (matcher : Matcher)
    (m : model) (msg : Msg) (hf : m.filtering = false) (hc : m.creatingBranch = false) :
    updateInputs ti matcher m msg = some (m, []) := by
  unfold updateInputs updateFilterInput updateNewBranchInput
  rw [if_neg (by rw [hf]; decide)]
  simp only
  rw [if_neg (by rw [hc]; decide)]

theorem filteredBranches_nil (matcher : Matcher) (filterText : String) :
    filteredBranches matcher filterText [] = [] := by
  unfold filteredBranches fuzzyFind lookupMatches
  split <;> simp [scanMatches]

/-- C15 fails as stated: with one worktree listed, a listing that fails is
delivered as an empty `worktreesMsg`, and `Update` then empties the worktrees
and sets no status message; with one branch listed, a branch listing that
fails empties `allBranches` and `branches`. -/
theorem C15_counterexample :
    getWorktreesCmdMsg (Except.error "exit status 128") = Msg.worktreesMsg [] ∧
      oneWorktreeModel.worktrees = [wtMain] ∧
      Update typingInput flatMatcher oneWorktreeModel
          (getWorktreesCmdMsg (Except.error "exit status 128"))
        = some ({ oneWorktreeModel with worktrees := [] }, none) ∧
      ({ oneWorktreeModel with worktrees := [] } : model).statusMessage = "" ∧
      branchListModel.allBranches = [brMain] ∧
      Update typingInput flatMatcher branchListModel
          (getBranchesCmdMsg (Except.error "exit status 128"))
        = some ({ branchListModel with allBranches := [], branches := [] }, none) :=
  ⟨rfl, rfl, rfl, rfl, rfl, rfl⟩

/-- C15, amended: a listing of worktrees that fails is delivered as an empty
`worktreesMsg` that carries no error; applying it, `Update` replaces the
worktrees by the empty list and leaves the status message as it was. A branch
listing that fails likewise replaces `allBranches` and `branches` by empty
lists. A listing that succeeds replaces the collection by the listing: the
handlers always replace the collection by what the message carries. -/
theorem C15_failed_listing_replaces (ti : InputUpdate) (matcher : Matcher)
    (m : model) (err : String) (ws : List Worktree) (bs : List Branch) :
    (∃ m1 c, Update ti matcher m (getWorktreesCmdMsg (Except.error err)) = some (m1, c) ∧
      m1.worktrees = [] ∧ m1.statusMessage = m.statusMessage) ∧
    (∃ m1 c, Update ti matcher m (getWorktreesCmdMsg (Except.ok ws)) = some (m1, c) ∧
      m1.worktrees = ws ∧ m1.statusMessage = m.statusMessage) ∧
    (∃ m1 c, Update ti matcher m (getBranchesCmdMsg (Except.error err)) = some (m1, c) ∧
      m1.allBranches = [] ∧ m1.branches = [] ∧ m1.statusMessage = m.statusMessage) ∧
    (∃ m1 c, Update ti matcher m (getBranchesCmdMsg (Except.ok bs)) = some (m1, c) ∧
      m1.allBranches = bs ∧ m1.statusMessage = m.statusMessage ∧
      (m1.filterInput.Value = "" → m1.branches = bs) ∧
      (m1.filterInput.Value ≠ "" →
        m1.branches = filteredBranches matcher m1.filterInput.Value bs)) := by
  have hwt : ∀ l : List Worktree, ∃ m1 c,
      Update ti matcher m (Msg.worktreesMsg l) = some (m1, c) ∧
      m1.worktrees = l ∧ m1.statusMessage = m.statusMessage := by
    intro l
    obtain ⟨fi, nbi, vis, cur, cmds, hu, -⟩ := updateInputs_some ti matcher m (Msg.worktreesMsg l)
    unfold Update
    rw [hu]
    exact ⟨_, _, rfl, rfl, rfl⟩
  have hbr : ∀ l : List Branch, ∃ m1 c,
      Update ti matcher m (Msg.branchesMsg l) = some (m1, c) ∧
      m1.allBranches = l ∧ m1.statusMessage = m.statusMessage ∧
      (m1.filterInput.Value = "" → m1.branches = l) ∧
      (m1.filterInput.Value ≠ "" →
        m1.branches = filteredBranches matcher m1.filterInput.Value l) := by
    intro l
    obtain ⟨fi, nbi, vis, cur, cmds, hu, -⟩ := updateInputs_some ti matcher m (Msg.branchesMsg l)
    unfold Update
    rw [hu]
    unfold handleMsg
    simp only
    obtain ⟨vis1, cur1, hfb, -, h2, h3⟩ := filterBranches_some matcher
      { m with filterInput := fi, newBranchInput := nbi, branches := l, cursor := cur,
               allBranches := l }
    rw [hfb]
    exact ⟨_, _, rfl, rfl, rfl, fun h => (h2 h).1, fun h => (h3 h).1⟩
  refine ⟨hwt [], hwt ws, ?_, hbr bs⟩
  obtain ⟨m1, c, h1, h2, h3, h4, h5⟩ := hbr []
  refine ⟨m1, c, h1, h2, ?_, h3⟩
  by_cases hv : m1.filterInput.Value = ""
  · exact h4 hv
  · rw [h5 hv, filteredBranches_nil]

/-! ## C16: the d key -/

/-- With the cursor inside the list, in the worktrees view and with no mode or
deletion active, the d key returns the state unchanged and the command that
announces the deletion of the worktree under the cursor. -/
theorem d_key_deletes (ti : InputUpdate) (matcher : Matcher) (m : model)
    (w : Worktree) (hv : m.view = "worktrees") (hf : m.filtering = false)
    (hc : m.creatingBranch = false) (hd : m.deletingWorktree = false)
    (hw : index? m.worktrees m.cursor = some w) :
    Update ti matcher m (Msg.key "d") = some (m, some (Cmd.deleteWorktreeCmd w)) := by
  have hlen : m.worktrees.length > 0 := by
    cases hl : m.worktrees with
    | nil => rw [hl] at hw; unfold index? at hw; split at hw <;> simp at hw
    | cons a l => simp
  unfold Update
  rw [updateInputs_list_mode ti matcher m _ hf hc]
  unfold handleMsg
  simp only
  rw [if_neg (by rw [hf, hc]; decide)]
  unfold updateKey
  rw [if_neg (by decide), if_neg (by decide), if_neg (by decide), if_neg (by decide),
    if_neg (by decide), if_neg (fun h => absurd h.1 (by decide)),
    if_neg (fun h => absurd h.1 (by decide)), if_pos ⟨rfl, hf, hc, hd, hv, hlen⟩, hw]

/-- In list mode, outside the worktrees view, on an empty list or while a
deletion is running, the d key returns the state unchanged and no command. -/
theorem d_key_noop (ti : InputUpdate) (matcher : Matcher) (m : model)
    (hf : m.filtering = false) (hc : m.creatingBranch = false)
    (h : m.view ≠ "worktrees" ∨ m.worktrees = [] ∨ m.deletingWorktree = true) :
    Update ti matcher m (Msg.key "d") = some (m, none) := by
  unfold Update
  rw [updateInputs_list_mode ti matcher m _ hf hc]
  unfold handleMsg
  simp only
  rw [if_neg (by rw [hf, hc]; decide)]
  unfold updateKey
  rw [if_neg (by decide), if_neg (by decide), if_neg (by decide), if_neg (by decide),
    if_neg (by decide), if_neg (fun h => absurd h.1 (by decide)),
    if_neg (fun h => absurd h.1 (by decide)), if_neg]
  · rfl
  · rintro ⟨-, -, -, hd, hv, hl⟩
    rcases h with h | h | h
    · exact h hv
    · rw [h] at hl; simp at hl
    · rw [h] at hd; cases hd

/-- C16 (the code aborts): in the reachable state left by the refresh after a
deletion, the view is "worktrees", the list is not empty and none of
`filtering`, `creatingBranch` and `deletingWorktree` is set, yet the d key
produces no delete command: the step aborts on `m.worktrees[m.cursor]`. -/
theorem C16_d_key_aborts_on_stale_cursor :
    Reachable typingInput flatMatcher staleCursorModel ∧
      staleCursorModel.view = "worktrees" ∧ staleCursorModel.worktrees ≠ [] ∧
      staleCursorModel.filtering = false ∧ staleCursorModel.creatingBranch = false ∧
      staleCursorModel.deletingWorktree = false ∧
      (Update typingInput flatMatcher staleCursorModel (Msg.key "d")).isNone = true :=
  ⟨reachable_of_run _ _ deleteLastTrace _ _ Reachable.init rfl, rfl, by decide, rfl, rfl, rfl,
    rfl⟩
/-! ## C17: the cursor after filtering -/

/-- C17: with a non-empty filter text and a cursor that is not negative,
`filterBranches` keeps the cursor when it is smaller than the length of the
filtered list and resets it to 0 otherwise; afterwards the cursor is inside
the list, or the list is empty and the cursor is 0. -/
theorem C17_filterBranches_cursor (matcher : Matcher) (m : model)
    (hv : m.filterInput.Value ≠ "") (hc : 0 ≤ m.cursor) :
    ∃ m1 : model, filterBranches matcher m = some m1 ∧
      m1.branches = filteredBranches matcher m.filterInput.Value m.allBranches ∧
      (m.cursor < (m1.branches.length : Int) → m1.cursor = m.cursor) ∧
      ((m1.branches.length : Int) ≤ m.cursor → m1.cursor = 0) ∧
      (0 ≤ m1.cursor ∧ m1.cursor < (m1.branches.length : Int) ∨
        m1.branches = [] ∧ m1.cursor = 0) := by
  obtain ⟨bs, cur, heq, -, -, hne⟩ := filterBranches_some matcher m
  obtain ⟨hbs, hcur⟩ := hne hv
  refine ⟨_, heq, hbs, ?_, ?_, ?_⟩
  · intro h
    show cur = m.cursor
    rw [hcur, if_neg (not_le.mpr h)]
  · intro h
    show cur = 0
    rw [hcur, if_pos h]
  · show 0 ≤ cur ∧ cur < (bs.length : Int) ∨ bs = [] ∧ cur = 0
    by_cases h : m.cursor ≥ (bs.length : Int)
    · have h0 : cur = 0 := by rw [hcur, if_pos h]
      cases hb : bs with
      | nil => exact Or.inr ⟨rfl, h0⟩
      | cons a l =>
        refine Or.inl ⟨by rw [h0], ?_⟩
        rw [h0]
        simp only [List.length_cons]
        omega
    · have h0 : cur = m.cursor := by rw [hcur, if_neg h]
      exact Or.inl ⟨by rw [h0]; exact hc, by rw [h0]; exact not_le.mp h⟩

/-- Witness for C17: with `ma` typed, of three branches the two named `main`
remain and the cursor, on the third row, goes to 0 and not to the last row. -/
theorem C17_filterBranches_cursor_witness :
    typedFilterModel.filterInput.Value ≠ "" ∧ (0 : Int) ≤ typedFilterModel.cursor ∧
      (filterBranches flatMatcher typedFilterModel).map (fun m => (m.branches.length, m.cursor))
        = some (2, 0) ∧
      ∃ m1 : model, filterBranches flatMatcher typedFilterModel = some m1 ∧
        m1.branches
          = filteredBranches flatMatcher typedFilterModel.filterInput.Value
              typedFilterModel.allBranches ∧
        (typedFilterModel.cursor < (m1.branches.length : Int) →
          m1.cursor = typedFilterModel.cursor) ∧
        ((m1.branches.length : Int) ≤ typedFilterModel.cursor → m1.cursor = 0) ∧
        (0 ≤ m1.cursor ∧ m1.cursor < (m1.branches.length : Int) ∨
          m1.branches = [] ∧ m1.cursor = 0) :=
  ⟨by decide, by decide, by decide,
    C17_filterBranches_cursor flatMatcher typedFilterModel (by decide) (by decide)⟩

/-! ## C18: the visible range -/

/-- C18: for lengths, viewport heights and scroll offsets that are not
negative, `getViewportRange` returns a range inside the list of
`min(totalItems, viewportHeight)` items: the whole list when it fits the
viewport, a window of exactly `viewportHeight` items otherwise; the scroll
indicator is empty exactly when the list fits the viewport, and otherwise shows
the size of the window next to the length of the list. -/
theorem C18_getViewportRange (helpStyle : String → String) (m : model) (totalItems : Int)
    (hstyle : ∀ s : String, s ≠ "" → helpStyle s ≠ "")
    (ht : 0 ≤ totalItems) (hv : 0 ≤ m.viewportHeight) (hs : 0 ≤ m.scrollOffset) :
    0 ≤ (getViewportRange m totalItems).1 ∧
      (getViewportRange m totalItems).1 ≤ (getViewportRange m totalItems).2 ∧
      (getViewportRange m totalItems).2 ≤ totalItems ∧
      (getViewportRange m totalItems).2 - (getViewportRange m totalItems).1
        = min totalItems m.viewportHeight ∧
      (totalItems ≤ m.viewportHeight → getViewportRange m totalItems = (0, totalItems)) ∧
      (m.viewportHeight < totalItems →
        (getViewportRange m totalItems).2 - (getViewportRange m totalItems).1
          = m.viewportHeight ∧
        renderScrollIndicator helpStyle m
            ((getViewportRange m totalItems).2 - (getViewportRange m totalItems).1) totalItems
          = helpStyle (" (" ++ toString m.viewportHeight ++ "/" ++ toString totalItems ++ ")")) ∧
      (∀ currentItems : Int,
        renderScrollIndicator helpStyle m currentItems totalItems = "" ↔
          totalItems ≤ m.viewportHeight) := by
  have hrange : 0 ≤ (getViewportRange m totalItems).1 ∧
      (getViewportRange m totalItems).1 ≤ (getViewportRange m totalItems).2 ∧
      (getViewportRange m totalItems).2 ≤ totalItems ∧
      (getViewportRange m totalItems).2 - (getViewportRange m totalItems).1
        = min totalItems m.viewportHeight ∧
      (totalItems ≤ m.viewportHeight → getViewportRange m totalItems = (0, totalItems)) := by
    unfold getViewportRange
    by_cases c1 : totalItems ≤ m.viewportHeight
    · rw [if_pos c1]
      exact ⟨le_refl 0, ht, le_refl _, by simp [min_eq_left c1], fun _ => rfl⟩
    · rw [if_neg c1]
      simp only
      have hmin : min totalItems m.viewportHeight = m.viewportHeight :=
        min_eq_right (by omega)
      by_cases c2 : m.scrollOffset + m.viewportHeight > totalItems
      · rw [if_pos c2]
        have c3 : ¬ totalItems - m.viewportHeight < 0 := by omega
        rw [if_neg c3, hmin]
        refine ⟨?_, ?_, le_refl _, ?_, fun h => absurd h c1⟩
        · show 0 ≤ totalItems - m.viewportHeight
          omega
        · show totalItems - m.viewportHeight ≤ totalItems
          omega
        · show totalItems - (totalItems - m.viewportHeight) = m.viewportHeight
          omega
      · rw [if_neg c2, hmin]
        refine ⟨hs, ?_, ?_, ?_, fun h => absurd h c1⟩
        · show m.scrollOffset ≤ m.scrollOffset + m.viewportHeight
          omega
        · show m.scrollOffset + m.viewportHeight ≤ totalItems
          omega
        · show m.scrollOffset + m.viewportHeight - m.scrollOffset = m.viewportHeight
          omega
  obtain ⟨h1, h2, h3, h4, h5⟩ := hrange
  refine ⟨h1, h2, h3, h4, h5, ?_, ?_⟩
  · intro hlt
    have hmin : min totalItems m.viewportHeight = m.viewportHeight :=
      min_eq_right (le_of_lt hlt)
    refine ⟨by rw [h4, hmin], ?_⟩
    unfold renderScrollIndicator
    rw [if_neg (not_le.mpr hlt), h4, hmin]
  · intro currentItems
    unfold renderScrollIndicator
    by_cases c1 : totalItems ≤ m.viewportHeight
    · rw [if_pos c1]
      exact ⟨fun _ => c1, fun _ => rfl⟩
    · rw [if_neg c1]
      refine ⟨fun h => absurd h (hstyle _ ?_), fun h => absurd h c1⟩
      intro he
      have hd := congrArg String.data he
      simp [String.data_append] at hd

/-- Witness for C18: thirty items in a viewport of 20 rows scrolled to row 15:
the window is clamped to rows 10 to 30 and the indicator reads 20 of 30. -/
theorem C18_getViewportRange_witness :
    (∀ s : String, s ≠ "" → padLeftStyle s ≠ "") ∧
      getViewportRange scrolledModel 30 = (10, 30) ∧
      renderScrollIndicator padLeftStyle scrolledModel 20 30 = "   (20/30)" ∧
      (getViewportRange scrolledModel 30).2 - (getViewportRange scrolledModel 30).1
        = min 30 scrolledModel.viewportHeight :=
  have hstyle : ∀ s : String, s ≠ "" → padLeftStyle s ≠ "" := by
    intro s _ he
    have hd := congrArg String.data he
    simp [padLeftStyle, String.data_append] at hd
  ⟨hstyle, by decide, by decide,
    (C18_getViewportRange padLeftStyle scrolledModel 30 hstyle (by decide) (by decide)
      (by decide)).2.2.2.1⟩
/-! ## C19: the tab key -/

/-- C19: with neither `filtering` nor `creatingBranch` set, the tab key returns
no command and a state that differs from the one before only in the view,
which goes from "worktrees" to "branches" and from "branches" to
"worktrees", and in the cursor and the scroll offset, which are 0; two tab
keys from the worktrees view end in the worktrees view. -/
theorem C19_tab_switches_view (ti : InputUpdate) (matcher : Matcher)
    (m : model) (hf : m.filtering = false) (hc : m.creatingBranch = false) :
    Update ti matcher m (Msg.key "tab")
        = some ({ m with view := if m.view = "worktrees" then "branches" else "worktrees",
                         cursor := 0, scrollOffset := 0 }, none) ∧
      (m.view = "worktrees" →
        Update ti matcher m (Msg.key "tab")
          = some ({ m with view := "branches", cursor := 0, scrollOffset := 0 }, none)) ∧
      (m.view = "branches" →
        Update ti matcher m (Msg.key "tab")
          = some ({ m with view := "worktrees", cursor := 0, scrollOffset := 0 }, none)) ∧
      (m.view = "worktrees" →
        run ti matcher m [Msg.key "tab", Msg.key "tab"]
          = some { m with view := "worktrees", cursor := 0, scrollOffset := 0 }) := by
  have tab : ∀ x : model, x.filtering = false → x.creatingBranch = false →
      Update ti matcher x (Msg.key "tab")
        = some ({ x with view := if x.view = "worktrees" then "branches" else "worktrees",
                         cursor := 0, scrollOffset := 0 }, none) := by
    intro x hxf hxc
    unfold Update
    rw [updateInputs_list_mode ti matcher x _ hxf hxc]
    unfold handleMsg
    simp only
    rw [if_neg (by rw [hxf, hxc]; decide)]
    unfold updateKey
    rw [if_neg (by decide), if_neg (by decide), if_neg (by decide), if_neg (by decide),
      if_pos rfl, if_pos ⟨hxf, hxc⟩]
    rfl
  refine ⟨tab m hf hc, ?_, ?_, ?_⟩
  · intro hv
    rw [tab m hf hc, if_pos hv]
  · intro hv
    have hne : ¬ m.view = "worktrees" := by rw [hv]; decide
    rw [tab m hf hc, if_neg hne]
  · intro hv
    have tab2 := tab { m with view := "branches", cursor := 0, scrollOffset := 0 } hf hc
    have hne : ¬ ("branches" : String) = "worktrees" := by decide
    rw [if_neg (show ¬ ({ m with view := "branches", cursor := 0, scrollOffset := 0 } : model).view = "worktrees" from hne)] at tab2
    unfold run
    rw [tab m hf hc, if_pos hv]
    simp only
    unfold run
    rw [tab2]
    rfl

/-- Witness for C19: tab in the initial state shows the branches view, and a
second tab the worktrees view again. -/
theorem C19_tab_switches_view_witness :
    initialModel.filtering = false ∧ initialModel.creatingBranch = false ∧
      Update typingInput flatMatcher initialModel (Msg.key "tab")
        = some ({ initialModel with view := "branches" }, none) ∧
      run typingInput flatMatcher initialModel [Msg.key "tab", Msg.key "tab"]
        = some initialModel :=
  ⟨rfl, rfl, (C19_tab_switches_view typingInput flatMatcher initialModel rfl rfl).2.1 rfl,
    (C19_tab_switches_view typingInput flatMatcher initialModel rfl rfl).2.2.2 rfl⟩

/-! ## C20: keys typed in a text-entry mode -/

theorem adjustScrollOffset_eq (x : model) :
    ∃ so : Int, adjustScrollOffset x = { x with scrollOffset := so } := by
  unfold adjustScrollOffset
  by_cases c1 : x.cursor < x.scrollOffset
  · rw [if_pos c1]; exact ⟨_, rfl⟩
  · rw [if_neg c1]
    by_cases c2 : x.cursor ≥ x.scrollOffset + x.viewportHeight
    · rw [if_pos c2]; exact ⟨_, rfl⟩
    · rw [if_neg c2]; exact ⟨x.scrollOffset, rfl⟩

theorem updateInputKey_total (m : model) (cmds : List Cmd) (keyStr : String)
    (hk : keyStr ≠ "enter") : ∃ r, updateInputKey m cmds keyStr = some r := by
  unfold updateInputKey
  by_cases k1 : keyStr = "ctrl+c"
  · rw [if_pos k1]; exact ⟨_, rfl⟩
  rw [if_neg k1]
  by_cases k2 : keyStr = "esc"
  · rw [if_pos k2]
    by_cases e1 : m.filtering = true
    · rw [if_pos e1]; exact ⟨_, rfl⟩
    rw [if_neg e1]
    by_cases e2 : m.creatingBranch = true
    · rw [if_pos e2]; exact ⟨_, rfl⟩
    rw [if_neg e2]; exact ⟨_, rfl⟩
  rw [if_neg k2, if_neg hk]
  by_cases k4 : keyStr = "up" ∨ keyStr = "k"
  · rw [if_pos k4]
    by_cases e1 : m.filtering = true ∧ m.cursor > 0
    · rw [if_pos e1]; exact ⟨_, rfl⟩
    rw [if_neg e1]; exact ⟨_, rfl⟩
  rw [if_neg k4]
  by_cases k5 : keyStr = "down" ∨ keyStr = "j"
  · rw [if_pos k5]
    by_cases e1 : m.filtering = true ∧ m.cursor < (m.branches.length : Int) - 1
    · rw [if_pos e1]; exact ⟨_, rfl⟩
    rw [if_neg e1]; exact ⟨_, rfl⟩
  rw [if_neg k5]; exact ⟨_, rfl⟩

/-- C20: while `filtering` or `creatingBranch` is set, a key other than ctrl+c,
esc and enter (d, q, n, f, / and tab among them) makes `Update` return a state
with the same view, modes, worktrees, branches and pending flags, and no
command but those of the text input: no quit, delete, open or create
command. -/
theorem C20_typed_keys_are_text (ti : InputUpdate) (matcher : Matcher)
    (m : model) (k : String) (hmode : m.filtering = true ∨ m.creatingBranch = true)
    (hk1 : k ≠ "ctrl+c") (hk2 : k ≠ "esc") (hk3 : k ≠ "enter") :
    ∃ (m1 : model) (c : Option Cmd),
      Update ti matcher m (Msg.key k) = some (m1, c) ∧
      (∀ d ∈ cmdList c, d = Cmd.inputCmd) ∧
      m1.view = m.view ∧ m1.filtering = m.filtering ∧ m1.creatingBranch = m.creatingBranch ∧
      m1.worktrees = m.worktrees ∧ m1.allBranches = m.allBranches ∧
      m1.deletingWorktree = m.deletingWorktree ∧ m1.deletingPath = m.deletingPath ∧
      m1.creatingWorktree = m.creatingWorktree ∧ m1.creatingForBranch = m.creatingForBranch ∧
      m1.creatingNewBranch = m.creatingNewBranch ∧
      m1.creatingNewBranchName = m.creatingNewBranchName := by
  obtain ⟨fi, nbi, bs, cur, cmds, hu, -, -, -, -, -, -, hcmds⟩ :=
    updateInputs_some ti matcher m (Msg.key k)
  have hmode1 : ∀ x : model, x.filtering = m.filtering → x.creatingBranch = m.creatingBranch →
      x.filtering = true ∨ x.creatingBranch = true := by
    intro x h1 h2
    rw [h1, h2]
    exact hmode
  have hbat : ∀ d ∈ cmdList (teaBatch cmds), d = Cmd.inputCmd :=
    fun d hd => hcmds d (cmdList_teaBatch cmds d hd)
  have hkeep : ∀ x : model, listStateKept m x → ∀ so : Int,
      listStateKept m { x with scrollOffset := so } := fun x hx _ => hx
  unfold Update
  rw [hu]
  unfold handleMsg
  simp only
  rw [if_pos (hmode1 _ rfl rfl)]
  obtain ⟨⟨m1, c⟩, hr⟩ := updateInputKey_total
    { m with filterInput := fi, newBranchInput := nbi, branches := bs, cursor := cur } cmds k hk3
  refine ⟨m1, c, hr, ?_⟩
  have hbase : listStateKept m
      { m with filterInput := fi, newBranchInput := nbi, branches := bs, cursor := cur } :=
    ⟨rfl, rfl, rfl, rfl, rfl, rfl, rfl, rfl, rfl, rfl, rfl⟩
  refine updateInputKey_cases (fun x c => (∀ d ∈ cmdList c, d = Cmd.inputCmd) ∧ listStateKept m x)
    _ cmds k ?_ ?_ ?_ ?_ ?_ ?_ ?_ ?_ m1 c hr
  · intro h; exact absurd h hk1
  · intro h; exact absurd h hk2
  · intro h; exact absurd h hk2
  · intro h; exact absurd h hk3
  · intro _ h; exact absurd h hk3
  · intro _ _ _
    obtain ⟨so, hso⟩ := adjustScrollOffset_eq
      { m with filterInput := fi, newBranchInput := nbi, branches := bs, cursor := cur - 1 }
    rw [hso]
    exact ⟨hbat, ⟨rfl, rfl, rfl, rfl, rfl, rfl, rfl, rfl, rfl, rfl, rfl⟩⟩
  · intro _ _ _
    obtain ⟨so, hso⟩ := adjustScrollOffset_eq
      { m with filterInput := fi, newBranchInput := nbi, branches := bs, cursor := cur + 1 }
    rw [hso]
    exact ⟨hbat, ⟨rfl, rfl, rfl, rfl, rfl, rfl, rfl, rfl, rfl, rfl, rfl⟩⟩
  · exact ⟨hbat, hbase⟩

/-- Witness for C20: while the name of a new branch is entered, the key d is
added to the name and returns no command. -/
theorem C20_typed_keys_are_text_witness :
    namingModel.creatingBranch = true ∧
      run typingInput flatMatcher namingModel [Msg.key "t", Msg.key "d"] = some typedNameModel ∧
      Update typingInput flatMatcher namingOverWorktreesModel (Msg.key "d")
        = some ({ namingOverWorktreesModel with
                    newBranchInput := (initialModel.newBranchInput.SetValue "d").Focus },
                none) ∧
      ∃ (m1 : model) (c : Option Cmd),
        Update typingInput flatMatcher namingModel (Msg.key "d") = some (m1, c) ∧
        (∀ d ∈ cmdList c, d = Cmd.inputCmd) ∧
        m1.view = namingModel.view ∧ m1.filtering = namingModel.filtering ∧
        m1.creatingBranch = namingModel.creatingBranch ∧
        m1.worktrees = namingModel.worktrees ∧ m1.allBranches = namingModel.allBranches ∧
        m1.deletingWorktree = namingModel.deletingWorktree ∧
        m1.deletingPath = namingModel.deletingPath ∧
        m1.creatingWorktree = namingModel.creatingWorktree ∧
        m1.creatingForBranch = namingModel.creatingForBranch ∧
        m1.creatingNewBranch = namingModel.creatingNewBranch ∧
        m1.creatingNewBranchName = namingModel.creatingNewBranchName :=
  ⟨rfl, rfl, rfl,
    C20_typed_keys_are_text typingInput flatMatcher namingModel "d" (Or.inr rfl)
      (by decide) (by decide) (by decide)⟩

/-! ## C21: text-entry modes and the view -/

/-- C21 (the code leaves the filter open): when the creation of a worktree
completes after the filter was opened, the reachable state shows the
worktrees view with `filtering` still true, and the key q is then added to the
filter text instead of quitting. -/
theorem C21_filter_open_over_worktrees :
    run typingInput flatMatcher initialModel filterDuringCreateTrace
        = some filterOverWorktreesModel ∧
      Reachable typingInput flatMatcher filterOverWorktreesModel ∧
      filterOverWorktreesModel.filtering = true ∧
      filterOverWorktreesModel.view = "worktrees" ∧
      filterOverWorktreesModel.view ≠ "branches" ∧
      Update typingInput flatMatcher filterOverWorktreesModel (Msg.key "q")
        = some ({ filterOverWorktreesModel with
                    filterInput := (initialModel.filterInput.SetValue "q").Focus,
                    branches := [] }, none) :=
  ⟨rfl, reachable_of_run _ _ filterDuringCreateTrace _ _ Reachable.init rfl, rfl, rfl,
    by decide, rfl⟩

/-! ## C22: the cursor and the visible range -/

/-- C22 (the code leaves the offset behind): in a viewport of 2 rows, after the
cursor went down to the fourth branch in filter mode, typing a text that three
branches match puts the cursor back to 0 and keeps the scroll offset 2; the
state is reachable, the list is not empty, the range shown is (1, 3) and the
cursor is outside of it. The same happens on esc, with the range (2, 4). -/
theorem C22_cursor_outside_visible_range :
    run typingInput flatMatcher initialModel (scrollInFilterTrace ++ [Msg.key "a"])
        = some filteredScrolledModel ∧
      Reachable typingInput flatMatcher filteredScrolledModel ∧
      (1 : Int) ≤ filteredScrolledModel.viewportHeight ∧
      filteredScrolledModel.view = "branches" ∧ filteredScrolledModel.branches ≠ [] ∧
      filteredScrolledModel.cursor = 0 ∧
      getViewportRange filteredScrolledModel filteredScrolledModel.branches.length = (1, 3) ∧
      ¬((getViewportRange filteredScrolledModel filteredScrolledModel.branches.length).1
            ≤ filteredScrolledModel.cursor ∧
          filteredScrolledModel.cursor
            < (getViewportRange filteredScrolledModel
                filteredScrolledModel.branches.length).2) ∧
      run typingInput flatMatcher initialModel (scrollInFilterTrace ++ [Msg.key "esc"])
        = some escScrolledModel ∧
      Reachable typingInput flatMatcher escScrolledModel ∧
      escScrolledModel.branches ≠ [] ∧ escScrolledModel.cursor = 0 ∧
      getViewportRange escScrolledModel escScrolledModel.branches.length = (2, 4) :=
  ⟨rfl, reachable_of_run _ _ (scrollInFilterTrace ++ [Msg.key "a"]) _ _ Reachable.init rfl,
    by decide, rfl, by decide, rfl, by decide, by decide, rfl,
    reachable_of_run _ _ (scrollInFilterTrace ++ [Msg.key "esc"]) _ _ Reachable.init rfl,
    by decide, rfl, by decide⟩

end Wtree
